import Mathlib

/-!
Verification development for the Mercury hand-tracking inverse-kinematics
core (`src/xrt/tracking/hand/mercury/kine/kinematic_main.cpp`).

The C++ code works on `Eigen` 3-vectors, 3x3 rotation matrices and affine
transforms in single-precision floating point.  The shallow embedding below
models those values over the real numbers: vectors are `Fin 3 → ℝ`, matrices
are `Matrix (Fin 3) (Fin 3) ℝ`, and every arithmetic step of the source is
transcribed in ideal real arithmetic.  External library primitives used by
the source (Eigen's `setFromTwoVectors`, `AngleAxis`, quaternion extraction,
`umeyama`) are modelled by their documented exact mathematical semantics;
repository helpers that live in headers not present under `src/`
(`_statics_init_world_poses`, `clamp`, `rad`, the hidden-thumb policy) are
modelled from the specification and marked as such in their doc comments.
-/

open Matrix

noncomputable section

namespace Mercury

/-- A 3-vector, the embedding of `Eigen::Vector3f`. -/
abbrev V3 : Type := Fin 3 → ℝ

/-- A 3x3 matrix, the embedding of `Eigen::Matrix3f`. -/
abbrev M3 : Type := Matrix (Fin 3) (Fin 3) ℝ

/-- Dot product of two 3-vectors, written out componentwise. -/
def dot3 (a b : V3) : ℝ := a 0 * b 0 + a 1 * b 1 + a 2 * b 2

/-- Cross product of two 3-vectors, written out componentwise. -/
def cross3 (a b : V3) : V3 :=
  ![a 1 * b 2 - a 2 * b 1, a 2 * b 0 - a 0 * b 2, a 0 * b 1 - a 1 * b 0]

/-- `Eigen::Vector3f::UnitX()`. -/
def unitX : V3 := ![1, 0, 0]

/-- `Eigen::Vector3f::UnitY()`. -/
def unitY : V3 := ![0, 1, 0]

/-- `-Eigen::Vector3f::UnitZ()`, the canonical forward axis of a bone. -/
def negUnitZ : V3 := ![0, 0, -1]

/-- Normalization `v.normalized()`: divide by the Euclidean norm.  (On the
zero vector the real-division-by-zero convention yields the zero vector.) -/
def normalize3 (v : V3) : V3 := (Real.sqrt (dot3 v v))⁻¹ • v

/-- The skew-symmetric cross-product matrix `[v]ₓ` with `[v]ₓ w = v × w`. -/
def crossMat (v : V3) : M3 :=
  !![0, -v 2, v 1; v 2, 0, -v 0; -v 1, v 0, 0]

/-- An axis orthogonal to `a`, used for the antiparallel fallback of the
shortest-arc rotation: cross `a` with whichever coordinate axis it is not
parallel to. -/
def orthoAxis (a : V3) : V3 :=
  normalize3 (cross3 a (if |a 0| < 3/4 then unitX else unitY))

/-- Shortest-arc rotation taking unit vector `a` to unit vector `b`, the
ideal-real-arithmetic model of Eigen's `Quaternionf().setFromTwoVectors(a,b)`
(converted to a matrix).  For non-antiparallel inputs Eigen's quaternion
`q ∝ (1 + a·b, a × b)` gives the matrix `I + K + K²/(1 + a·b)` with
`K = [a × b]ₓ`.  The antiparallel branch (Eigen resolves it through an SVD)
is modelled as the exact 180° rotation `2uuᵀ - I` about an axis `u ⊥ a`. -/
def minRotMat (a b : V3) : M3 :=
  if 1 + dot3 a b = 0 then
    (2 : ℝ) • Matrix.vecMulVec (orthoAxis a) (orthoAxis a) - 1
  else
    1 + crossMat (cross3 a b) +
      (1 + dot3 a b)⁻¹ • (crossMat (cross3 a b) * crossMat (cross3 a b))

/-- Rotation about the X axis by angle `β` (Eigen's
`AngleAxisf(β, UnitX()).toRotationMatrix()`). -/
def rotX (β : ℝ) : M3 :=
  !![1, 0, 0; 0, Real.cos β, -Real.sin β; 0, Real.sin β, Real.cos β]

/-- Two-argument arctangent `atan2(y, x)` of the C library, modelled as the
principal argument of the complex number `x + y i` (they agree away from the
origin, with values in `(-π, π]`). -/
def atan2 (y x : ℝ) : ℝ := Complex.arg ⟨x, y⟩

/-- The rotation angle Eigen's `AngleAxisf` extracts from a rotation matrix,
in ideal arithmetic: the canonical angle `arccos((tr M - 1)/2) ∈ [0, π]`. -/
def angleOf (m : M3) : ℝ := Real.arccos ((Matrix.trace m - 1) / 2)

/-- The rotation axis Eigen's `AngleAxisf` extracts from a rotation matrix:
the normalized skew part. -/
def axisOf (m : M3) : V3 :=
  (2 * Real.sin (angleOf m))⁻¹ •
    ![m 2 1 - m 1 2, m 0 2 - m 2 0, m 1 0 - m 0 1]

/-- Rodrigues rotation matrix about axis `u` by angle `β`
(`Eigen::AngleAxisf(β, u).toRotationMatrix()` for unit `u`). -/
def rodrigues (u : V3) (β : ℝ) : M3 :=
  1 + Real.sin β • crossMat u + (1 - Real.cos β) • (crossMat u * crossMat u)

/-- Modelled from the spec: the scalar `clamp(&v, min, max)` helper of
`kinematic_tiny_math.hpp` (not under `src/`), the usual interval clamp. -/
def clampR (v lo hi : ℝ) : ℝ := max lo (min v hi)

/-- Modelled from the spec: the `rad()` degree-to-radian helper of
`kinematic_tiny_math.hpp` (not under `src/`). -/
def rad (x : ℝ) : ℝ := x * Real.pi / 180

/-! ## Bridging lemmas for the vector core -/

theorem dot3_self_nonneg (v : V3) : 0 ≤ dot3 v v := by
  unfold dot3
  nlinarith [sq_nonneg (v 0), sq_nonneg (v 1), sq_nonneg (v 2)]

theorem dot3_cross3_left (a b : V3) : dot3 (cross3 a b) a = 0 := by
  simp [dot3, cross3]; ring

theorem crossMat_mulVec (v w : V3) : (crossMat v).mulVec w = cross3 v w := by
  funext i
  fin_cases i <;>
    simp [crossMat, cross3, Matrix.mulVec, Matrix.dotProduct,
      Fin.sum_univ_three] <;> ring

/-- A unit vector is fixed by normalization. -/
theorem normalize3_of_unit {v : V3} (h : dot3 v v = 1) : normalize3 v = v := by
  simp [normalize3, h]

/-- Normalizing a positive multiple of a unit vector recovers the vector. -/
theorem normalize3_smul_of_unit {v : V3} {k : ℝ} (hv : dot3 v v = 1)
    (hk : 0 < k) : normalize3 (k • v) = v := by
  have h1 : dot3 (k • v) (k • v) = k ^ 2 * dot3 v v := by
    simp [dot3]; ring
  have h2 : Real.sqrt (dot3 (k • v) (k • v)) = k := by
    rw [h1, hv, mul_one, Real.sqrt_sq hk.le]
  funext i
  simp only [normalize3, h2, Pi.smul_apply, smul_eq_mul]
  rw [← mul_assoc, inv_mul_cancel₀ hk.ne', one_mul]

/-- The normalized vector of a nonzero vector is a unit vector. -/
theorem dot3_normalize3_self {v : V3} (h : dot3 v v ≠ 0) :
    dot3 (normalize3 v) (normalize3 v) = 1 := by
  have hpos : 0 < dot3 v v := lt_of_le_of_ne (dot3_self_nonneg v) (Ne.symm h)
  have hs : Real.sqrt (dot3 v v) ≠ 0 := (Real.sqrt_pos.mpr hpos).ne'
  have hsq : Real.sqrt (dot3 v v) * Real.sqrt (dot3 v v) = dot3 v v :=
    Real.mul_self_sqrt (dot3_self_nonneg v)
  have : dot3 (normalize3 v) (normalize3 v)
      = (Real.sqrt (dot3 v v))⁻¹ * (Real.sqrt (dot3 v v))⁻¹ * dot3 v v := by
    simp [normalize3, dot3]; ring
  rw [this, ← hsq]
  field_simp

/-- Scalar multiple pulls out of the first slot of `dot3`. -/
theorem dot3_smul_left (k : ℝ) (v w : V3) : dot3 (k • v) w = k * dot3 v w := by
  simp [dot3]; ring

/-- `orthoAxis a` is orthogonal to `a`. -/
theorem dot3_orthoAxis (a : V3) : dot3 (orthoAxis a) a = 0 := by
  unfold orthoAxis normalize3
  rw [dot3_smul_left, dot3_cross3_left, mul_zero]

/-- In the antiparallel case `a·b = -1` of two unit vectors, `b = -a`. -/
theorem eq_neg_of_antiparallel {a b : V3} (ha : dot3 a a = 1)
    (hb : dot3 b b = 1) (h : 1 + dot3 a b = 0) : ∀ i, b i = -a i := by
  unfold dot3 at ha hb h
  have hsum : (a 0 + b 0) ^ 2 + (a 1 + b 1) ^ 2 + (a 2 + b 2) ^ 2 = 0 := by
    nlinarith
  have h0 : a 0 + b 0 = 0 := by
    nlinarith [sq_nonneg (a 0 + b 0), sq_nonneg (a 1 + b 1), sq_nonneg (a 2 + b 2)]
  have h1 : a 1 + b 1 = 0 := by
    nlinarith [sq_nonneg (a 0 + b 0), sq_nonneg (a 1 + b 1), sq_nonneg (a 2 + b 2)]
  have h2 : a 2 + b 2 = 0 := by
    nlinarith [sq_nonneg (a 0 + b 0), sq_nonneg (a 1 + b 1), sq_nonneg (a 2 + b 2)]
  intro i
  fin_cases i <;> simp <;> linarith

/-- The shortest-arc rotation takes its source unit vector exactly to its
target unit vector (both branches of the model). -/
theorem minRotMat_mulVec {a b : V3} (ha : dot3 a a = 1) (hb : dot3 b b = 1) :
    (minRotMat a b).mulVec a = b := by
  rcases eq_or_ne (1 + dot3 a b) 0 with h | h
  · have hneg := eq_neg_of_antiparallel ha hb h
    have hu := dot3_orthoAxis a
    unfold dot3 at hu
    unfold minRotMat
    rw [if_pos h]
    funext i
    fin_cases i
    · simp [Matrix.mulVec, Matrix.dotProduct, Fin.sum_univ_three,
        Matrix.vecMulVec, Matrix.sub_apply, Matrix.smul_apply,
        Matrix.one_apply, hneg 0]
      linear_combination (2 * orthoAxis a 0) * hu
    · simp [Matrix.mulVec, Matrix.dotProduct, Fin.sum_univ_three,
        Matrix.vecMulVec, Matrix.sub_apply, Matrix.smul_apply,
        Matrix.one_apply, hneg 1]
      linear_combination (2 * orthoAxis a 1) * hu
    · simp [Matrix.mulVec, Matrix.dotProduct, Fin.sum_univ_three,
        Matrix.vecMulVec, Matrix.sub_apply, Matrix.smul_apply,
        Matrix.one_apply, hneg 2]
      linear_combination (2 * orthoAxis a 2) * hu
  · unfold minRotMat
    rw [if_neg h]
    have h' : (1 : ℝ) + (a 0 * b 0 + a 1 * b 1 + a 2 * b 2) ≠ 0 := h
    unfold dot3 at ha hb
    funext i
    fin_cases i
    · simp [Matrix.mulVec, Matrix.dotProduct, Fin.sum_univ_three,
        Matrix.add_apply, Matrix.smul_apply, Matrix.one_apply,
        Matrix.mul_apply, crossMat, cross3, dot3]
      field_simp
      linear_combination ((1 + (a 0 * b 0 + a 1 * b 1 + a 2 * b 2)) * b 0
        - a 0 * (b 0 * b 0 + b 1 * b 1 + b 2 * b 2)) * ha - a 0 * hb
    · simp [Matrix.mulVec, Matrix.dotProduct, Fin.sum_univ_three,
        Matrix.add_apply, Matrix.smul_apply, Matrix.one_apply,
        Matrix.mul_apply, crossMat, cross3, dot3]
      field_simp
      linear_combination ((1 + (a 0 * b 0 + a 1 * b 1 + a 2 * b 2)) * b 1
        - a 1 * (b 0 * b 0 + b 1 * b 1 + b 2 * b 2)) * ha - a 1 * hb
    · simp [Matrix.mulVec, Matrix.dotProduct, Fin.sum_univ_three,
        Matrix.add_apply, Matrix.smul_apply, Matrix.one_apply,
        Matrix.mul_apply, crossMat, cross3, dot3]
      field_simp
      linear_combination ((1 + (a 0 * b 0 + a 1 * b 1 + a 2 * b 2)) * b 2
        - a 2 * (b 0 * b 0 + b 1 * b 1 + b 2 * b 2)) * ha - a 2 * hb

/-- The cross-product matrix is antisymmetric. -/
theorem crossMat_transpose (v : V3) : (crossMat v)ᵀ = -crossMat v := by
  ext i j
  fin_cases i <;> fin_cases j <;>
    simp [crossMat, Matrix.transpose_apply, Matrix.neg_apply]

set_option maxRecDepth 10000 in
/-- The generic (non-antiparallel) branch of the shortest-arc rotation is an
orthogonal matrix: its transpose is a left inverse. -/
theorem minRotMat_transpose_mul {a b : V3} (ha : dot3 a a = 1)
    (hb : dot3 b b = 1) (h : 1 + dot3 a b ≠ 0) :
    (minRotMat a b)ᵀ * minRotMat a b = 1 := by
  unfold minRotMat
  rw [if_neg h]
  have hg : (1 + dot3 a b)⁻¹ * (1 + (a 0 * b 0 + a 1 * b 1 + a 2 * b 2)) = 1 :=
    inv_mul_cancel₀ h
  have hMt : ((1 : M3) + crossMat (cross3 a b) +
      (1 + dot3 a b)⁻¹ • (crossMat (cross3 a b) * crossMat (cross3 a b)))ᵀ
      = (1 : M3) - crossMat (cross3 a b) +
        (1 + dot3 a b)⁻¹ • (crossMat (cross3 a b) * crossMat (cross3 a b)) := by
    simp [Matrix.transpose_add, Matrix.transpose_smul, Matrix.transpose_mul,
      crossMat_transpose, Matrix.neg_mul, Matrix.mul_neg, sub_eq_add_neg]
  rw [hMt]
  unfold dot3 at ha hb
  ext i j
  fin_cases i <;> fin_cases j
  · simp [Matrix.mul_apply, Fin.sum_univ_three,
      Matrix.add_apply, Matrix.sub_apply, Matrix.neg_apply, Matrix.smul_apply,
      Matrix.one_apply, crossMat, cross3]
    linear_combination ((-((a 2 * b 0 - a 0 * b 2)^2) - ((a 0 * b 1 - a 1 * b 0)^2)) * (1 - (1 - (a 0 * b 0 + a 1 * b 1 + a 2 * b 2)) * (1 + dot3 a b)⁻¹)) * hg - ((-((a 2 * b 0 - a 0 * b 2)^2) - ((a 0 * b 1 - a 1 * b 0)^2)) * (1 + dot3 a b)⁻¹^2 * (b 0 * b 0 + b 1 * b 1 + b 2 * b 2)) * ha - ((-((a 2 * b 0 - a 0 * b 2)^2) - ((a 0 * b 1 - a 1 * b 0)^2)) * (1 + dot3 a b)⁻¹^2) * hb
  · simp [Matrix.mul_apply, Fin.sum_univ_three,
      Matrix.add_apply, Matrix.sub_apply, Matrix.neg_apply, Matrix.smul_apply,
      Matrix.one_apply, crossMat, cross3]
    linear_combination (((a 1 * b 2 - a 2 * b 1) * (a 2 * b 0 - a 0 * b 2)) * (1 - (1 - (a 0 * b 0 + a 1 * b 1 + a 2 * b 2)) * (1 + dot3 a b)⁻¹)) * hg - (((a 1 * b 2 - a 2 * b 1) * (a 2 * b 0 - a 0 * b 2)) * (1 + dot3 a b)⁻¹^2 * (b 0 * b 0 + b 1 * b 1 + b 2 * b 2)) * ha - (((a 1 * b 2 - a 2 * b 1) * (a 2 * b 0 - a 0 * b 2)) * (1 + dot3 a b)⁻¹^2) * hb
  · simp [Matrix.mul_apply, Fin.sum_univ_three,
      Matrix.add_apply, Matrix.sub_apply, Matrix.neg_apply, Matrix.smul_apply,
      Matrix.one_apply, crossMat, cross3]
    linear_combination (((a 1 * b 2 - a 2 * b 1) * (a 0 * b 1 - a 1 * b 0)) * (1 - (1 - (a 0 * b 0 + a 1 * b 1 + a 2 * b 2)) * (1 + dot3 a b)⁻¹)) * hg - (((a 1 * b 2 - a 2 * b 1) * (a 0 * b 1 - a 1 * b 0)) * (1 + dot3 a b)⁻¹^2 * (b 0 * b 0 + b 1 * b 1 + b 2 * b 2)) * ha - (((a 1 * b 2 - a 2 * b 1) * (a 0 * b 1 - a 1 * b 0)) * (1 + dot3 a b)⁻¹^2) * hb
  · simp [Matrix.mul_apply, Fin.sum_univ_three,
      Matrix.add_apply, Matrix.sub_apply, Matrix.neg_apply, Matrix.smul_apply,
      Matrix.one_apply, crossMat, cross3]
    linear_combination (((a 2 * b 0 - a 0 * b 2) * (a 1 * b 2 - a 2 * b 1)) * (1 - (1 - (a 0 * b 0 + a 1 * b 1 + a 2 * b 2)) * (1 + dot3 a b)⁻¹)) * hg - (((a 2 * b 0 - a 0 * b 2) * (a 1 * b 2 - a 2 * b 1)) * (1 + dot3 a b)⁻¹^2 * (b 0 * b 0 + b 1 * b 1 + b 2 * b 2)) * ha - (((a 2 * b 0 - a 0 * b 2) * (a 1 * b 2 - a 2 * b 1)) * (1 + dot3 a b)⁻¹^2) * hb
  · simp [Matrix.mul_apply, Fin.sum_univ_three,
      Matrix.add_apply, Matrix.sub_apply, Matrix.neg_apply, Matrix.smul_apply,
      Matrix.one_apply, crossMat, cross3]
    linear_combination ((-((a 1 * b 2 - a 2 * b 1)^2) - ((a 0 * b 1 - a 1 * b 0)^2)) * (1 - (1 - (a 0 * b 0 + a 1 * b 1 + a 2 * b 2)) * (1 + dot3 a b)⁻¹)) * hg - ((-((a 1 * b 2 - a 2 * b 1)^2) - ((a 0 * b 1 - a 1 * b 0)^2)) * (1 + dot3 a b)⁻¹^2 * (b 0 * b 0 + b 1 * b 1 + b 2 * b 2)) * ha - ((-((a 1 * b 2 - a 2 * b 1)^2) - ((a 0 * b 1 - a 1 * b 0)^2)) * (1 + dot3 a b)⁻¹^2) * hb
  · simp [Matrix.mul_apply, Fin.sum_univ_three,
      Matrix.add_apply, Matrix.sub_apply, Matrix.neg_apply, Matrix.smul_apply,
      Matrix.one_apply, crossMat, cross3]
    linear_combination (((a 2 * b 0 - a 0 * b 2) * (a 0 * b 1 - a 1 * b 0)) * (1 - (1 - (a 0 * b 0 + a 1 * b 1 + a 2 * b 2)) * (1 + dot3 a b)⁻¹)) * hg - (((a 2 * b 0 - a 0 * b 2) * (a 0 * b 1 - a 1 * b 0)) * (1 + dot3 a b)⁻¹^2 * (b 0 * b 0 + b 1 * b 1 + b 2 * b 2)) * ha - (((a 2 * b 0 - a 0 * b 2) * (a 0 * b 1 - a 1 * b 0)) * (1 + dot3 a b)⁻¹^2) * hb
  · simp [Matrix.mul_apply, Fin.sum_univ_three,
      Matrix.add_apply, Matrix.sub_apply, Matrix.neg_apply, Matrix.smul_apply,
      Matrix.one_apply, crossMat, cross3]
    linear_combination (((a 0 * b 1 - a 1 * b 0) * (a 1 * b 2 - a 2 * b 1)) * (1 - (1 - (a 0 * b 0 + a 1 * b 1 + a 2 * b 2)) * (1 + dot3 a b)⁻¹)) * hg - (((a 0 * b 1 - a 1 * b 0) * (a 1 * b 2 - a 2 * b 1)) * (1 + dot3 a b)⁻¹^2 * (b 0 * b 0 + b 1 * b 1 + b 2 * b 2)) * ha - (((a 0 * b 1 - a 1 * b 0) * (a 1 * b 2 - a 2 * b 1)) * (1 + dot3 a b)⁻¹^2) * hb
  · simp [Matrix.mul_apply, Fin.sum_univ_three,
      Matrix.add_apply, Matrix.sub_apply, Matrix.neg_apply, Matrix.smul_apply,
      Matrix.one_apply, crossMat, cross3]
    linear_combination (((a 0 * b 1 - a 1 * b 0) * (a 2 * b 0 - a 0 * b 2)) * (1 - (1 - (a 0 * b 0 + a 1 * b 1 + a 2 * b 2)) * (1 + dot3 a b)⁻¹)) * hg - (((a 0 * b 1 - a 1 * b 0) * (a 2 * b 0 - a 0 * b 2)) * (1 + dot3 a b)⁻¹^2 * (b 0 * b 0 + b 1 * b 1 + b 2 * b 2)) * ha - (((a 0 * b 1 - a 1 * b 0) * (a 2 * b 0 - a 0 * b 2)) * (1 + dot3 a b)⁻¹^2) * hb
  · simp [Matrix.mul_apply, Fin.sum_univ_three,
      Matrix.add_apply, Matrix.sub_apply, Matrix.neg_apply, Matrix.smul_apply,
      Matrix.one_apply, crossMat, cross3]
    linear_combination ((-((a 1 * b 2 - a 2 * b 1)^2) - ((a 2 * b 0 - a 0 * b 2)^2)) * (1 - (1 - (a 0 * b 0 + a 1 * b 1 + a 2 * b 2)) * (1 + dot3 a b)⁻¹)) * hg - ((-((a 1 * b 2 - a 2 * b 1)^2) - ((a 2 * b 0 - a 0 * b 2)^2)) * (1 + dot3 a b)⁻¹^2 * (b 0 * b 0 + b 1 * b 1 + b 2 * b 2)) * ha - ((-((a 1 * b 2 - a 2 * b 1)^2) - ((a 2 * b 0 - a 0 * b 2)^2)) * (1 + dot3 a b)⁻¹^2) * hb

/-- On the generic branch the shortest-arc rotation matrix is invertible with
inverse its transpose. -/
theorem minRotMat_inv_eq_transpose {a b : V3} (ha : dot3 a a = 1)
    (hb : dot3 b b = 1) (h : 1 + dot3 a b ≠ 0) :
    (minRotMat a b)⁻¹ = (minRotMat a b)ᵀ :=
  Matrix.inv_eq_left_inv (minRotMat_transpose_mul ha hb h)

/-- Multiplying by the shortest-arc rotation cancels a previous multiplication
by its inverse. -/
theorem mul_minRotMat_inv_mul_cancel {a b : V3} (ha : dot3 a a = 1)
    (hb : dot3 b b = 1) (h : 1 + dot3 a b ≠ 0) (X : M3) :
    X * (minRotMat a b)⁻¹ * minRotMat a b = X := by
  rw [minRotMat_inv_eq_transpose ha hb h, Matrix.mul_assoc,
    minRotMat_transpose_mul ha hb h, Matrix.mul_one]

/-! ## HingeClamp: `clamp_to_x_axis` (kinematic_main.cpp lines 139-200)

The function operates in place on `bone.bone_relation.linear()`; here it is
embedded as a function from the bone's local rotation matrix to the new one.
The locked axis index is fixed to `axis = 0` in the source, so the locked
axis is `UnitX`, the measured second axis is `UnitY`, and the two measured
off-axis components are indices `2` and `1`. -/

/-- The correction step (lines 155-163): find where the input rotation sends
the locked axis, and left-compose the shortest-arc rotation taking that image
back onto the axis. -/
def correctionStep (r : M3) : M3 :=
  minRotMat (normalize3 (r.mulVec unitX)) unitX * r

/-- The measured signed rotation angle about the locked X axis
(lines 170-173): the two-argument arctangent of components `2` and `1` of the
image of `UnitY`. -/
def measuredAngleX (r : M3) : ℝ :=
  atan2 ((r.mulVec unitY) 2) ((r.mulVec unitY) 1)

/-- The out-of-range bound choice of `clamp_to_x_axis` (lines 181-197),
transcribed verbatim: for a negative measured angle the code compares using
`2π - rv` (note: not the complementary wrapped value `2π + rv`). -/
def hingeChooseBound (rv minA maxA : ℝ) : ℝ :=
  let pos := if rv < 0 then 2 * Real.pi - rv else rv
  let neg := if rv < 0 then rv else -(2 * Real.pi) + rv
  if pos - maxA > minA - neg then minA else maxA

/-- Full `clamp_to_x_axis` on a bone's local rotation matrix
(lines 139-200). -/
def clampToXAxisMat (r : M3) (clampAngle : Bool) (minA maxA : ℝ) : M3 :=
  if !clampAngle then correctionStep r
  else
    let rv := measuredAngleX (correctionStep r)
    if rv < maxA ∧ rv > minA then correctionStep r
    else rotX (hingeChooseBound rv minA maxA)

/-- The bound choice as the specification describes it (spec §4.3 HingeClamp
step 2): compute the angle's complementary wrapped value around ±2π — for a
negative angle the positive equivalent `rv + 2π`, for a positive angle the
negative equivalent `rv - 2π` — and pick whichever bound is angularly closer
considering wrap-around. -/
def specCloserBound (rv minA maxA : ℝ) : ℝ :=
  let pos := if rv < 0 then rv + 2 * Real.pi else rv
  let neg := if rv < 0 then rv else rv - 2 * Real.pi
  if pos - maxA > minA - neg then minA else maxA

/-- The chosen bound is always one of the two bounds. -/
theorem hingeChooseBound_mem (rv minA maxA : ℝ) :
    hingeChooseBound rv minA maxA = minA ∨ hingeChooseBound rv minA maxA = maxA := by
  unfold hingeChooseBound
  rcases em ((if rv < 0 then 2 * Real.pi - rv else rv) - maxA >
      minA - (if rv < 0 then rv else -(2 * Real.pi) + rv)) with h | h
  · left; simp [h]
  · right; simp [h]

/-- `atan2` recovers an angle from its sine and cosine on `(-π, π]`. -/
theorem atan2_sin_cos {β : ℝ} (h1 : -Real.pi < β) (h2 : β ≤ Real.pi) :
    atan2 (Real.sin β) (Real.cos β) = β := by
  unfold atan2
  have hz : (⟨Real.cos β, Real.sin β⟩ : ℂ)
      = Complex.cos β + Complex.sin β * Complex.I := by
    apply Complex.ext <;>
      simp [Complex.cos_ofReal_re, Complex.sin_ofReal_re]
  rw [hz]
  exact Complex.arg_cos_add_sin_mul_I ⟨h1, h2⟩

/-- The measured angle of a pure X rotation by `β ∈ (-π, π]` is exactly
`β`. -/
theorem measuredAngleX_rotX {β : ℝ} (h1 : -Real.pi < β) (h2 : β ≤ Real.pi) :
    measuredAngleX (rotX β) = β := by
  have hv : (rotX β).mulVec unitY = ![0, Real.cos β, Real.sin β] := by
    funext i
    fin_cases i <;>
      simp [rotX, unitY, Matrix.mulVec, Matrix.dotProduct, Fin.sum_univ_three]
  unfold measuredAngleX
  rw [hv]
  show atan2 (Real.sin β) (Real.cos β) = β
  exact atan2_sin_cos h1 h2

/-- The shortest-arc rotation from a unit vector to itself is the
identity. -/
theorem minRotMat_self {a : V3} (ha : dot3 a a = 1) : minRotMat a a = 1 := by
  have hK : crossMat (cross3 a a) = (0 : M3) := by
    ext i j
    fin_cases i <;> fin_cases j <;> simp [crossMat, cross3] <;> ring
  unfold minRotMat
  rw [if_neg (by rw [ha]; norm_num), hK]
  simp

/-- If the input rotation already fixes the locked axis, the correction step
is the identity correction. -/
theorem correctionStep_of_fixes {r : M3} (h : r.mulVec unitX = unitX) :
    correctionStep r = r := by
  have hxu : dot3 unitX unitX = 1 := by norm_num [dot3, unitX]
  unfold correctionStep
  rw [h, normalize3_of_unit hxu, minRotMat_self hxu, Matrix.one_mul]

/-- `rotX` fixes the X axis. -/
theorem rotX_mulVec_unitX (β : ℝ) : (rotX β).mulVec unitX = unitX := by
  funext i
  fin_cases i <;>
    simp [rotX, unitX, Matrix.mulVec, Matrix.dotProduct, Fin.sum_univ_three]

/-- C7. For every input local rotation `r` (an orthogonal matrix), the
correction step of HingeClamp — left-composing onto `r` the minimal rotation
taking the image `r · UnitX` back onto the locked axis — yields a rotation
that maps the locked X axis exactly to itself. -/
theorem C7_correction_step_locks_x_axis {r : M3} (h : rᵀ * r = 1) :
    (correctionStep r).mulVec unitX = unitX := by
  have h00 := congrFun (congrFun h 0) 0
  simp [Matrix.mul_apply, Matrix.transpose_apply, Fin.sum_univ_three,
    Matrix.one_apply] at h00
  have hcol : dot3 (r.mulVec unitX) (r.mulVec unitX) = 1 := by
    simp [dot3, Matrix.mulVec, Matrix.dotProduct, Fin.sum_univ_three, unitX]
    linear_combination h00
  have hxu : dot3 unitX unitX = 1 := by norm_num [dot3, unitX]
  have hnu : normalize3 (r.mulVec unitX) = r.mulVec unitX :=
    normalize3_of_unit hcol
  unfold correctionStep
  rw [← Matrix.mulVec_mulVec, hnu]
  exact minRotMat_mulVec hcol hxu

/-- A concrete orthogonal input (rotation by 90° about Z) used to witness the
hypotheses of the HingeClamp theorems. -/
def hingeWitnessRot : M3 := !![0, -1, 0; 1, 0, 0; 0, 0, 1]

/-- Witness for C7: the hypothesis holds at the concrete 90°-about-Z input
and the theorem applies there. -/
theorem C7_correction_step_locks_x_axis_witness :
    (hingeWitnessRotᵀ * hingeWitnessRot = 1) ∧
    (correctionStep hingeWitnessRot).mulVec unitX = unitX := by
  have ht : hingeWitnessRotᵀ = !![0, 1, 0; -1, 0, 0; 0, 0, 1] := by
    ext i j
    fin_cases i <;> fin_cases j <;>
      simp [hingeWitnessRot, Matrix.transpose_apply, Matrix.vecHead,
        Matrix.vecTail, Function.comp]
  have h : hingeWitnessRotᵀ * hingeWitnessRot = 1 := by
    rw [ht]
    ext i j
    fin_cases i <;> fin_cases j <;>
      simp [hingeWitnessRot, Matrix.mul_apply, Fin.sum_univ_three,
        Matrix.one_apply, Matrix.vecHead, Matrix.vecTail, Function.comp]
  exact ⟨h, C7_correction_step_locks_x_axis h⟩

/-- C4. For every input local rotation matrix, after `clamp_to_x_axis` with
clamping enabled and bounds `rad(-90)`, `rad(10)`, the signed angle measured
about the locked X axis (via the two-argument arctangent of the image of the
second axis) lies within `[rad(-90), rad(10)]` — with no tolerance needed in
ideal arithmetic, and with no restriction on the input, including rotations
whose measured angle wraps past ±180°. -/
theorem C4_hinge_clamp_angle_bound (r : M3) :
    rad (-90) ≤ measuredAngleX (clampToXAxisMat r true (rad (-90)) (rad 10)) ∧
    measuredAngleX (clampToXAxisMat r true (rad (-90)) (rad 10)) ≤ rad 10 := by
  have hπ := Real.pi_pos
  have hmin : rad (-90) = -(Real.pi / 2) := by unfold rad; ring
  have hmax : rad 10 = Real.pi / 18 := by unfold rad; ring
  unfold clampToXAxisMat
  simp only [Bool.not_true, Bool.false_eq_true, if_false]
  by_cases hin : measuredAngleX (correctionStep r) < rad 10 ∧
      measuredAngleX (correctionStep r) > rad (-90)
  · rw [if_pos hin]
    exact ⟨le_of_lt hin.2, le_of_lt hin.1⟩
  · rw [if_neg hin]
    rcases hingeChooseBound_mem (measuredAngleX (correctionStep r))
        (rad (-90)) (rad 10) with hbb | hbb <;> rw [hbb]
    · rw [measuredAngleX_rotX (by rw [hmin]; linarith) (by rw [hmin]; linarith)]
      constructor
      · exact le_refl _
      · rw [hmin, hmax]; linarith
    · rw [measuredAngleX_rotX (by rw [hmax]; linarith) (by rw [hmax]; linarith)]
      constructor
      · rw [hmin, hmax]; linarith
      · exact le_refl _

/-- C3 counterexample.  At the input rotation `rotX(rad(-170))` with bounds
`min = rad(-1)`, `max = rad(179)`, the measured angle `rad(-170)` is outside
the bounds (below the minimum), yet `clamp_to_x_axis` sets the rotation to the
minimum bound while the bound that is angularly closer considering wrap-around
(per the specification's complementary-wrapped-value rule) is the maximum
bound: the claim's described behaviour fails at this input because the code
computes `2π - angle` instead of the complementary `2π + angle` for negative
angles. -/
theorem C3_counterexample :
    measuredAngleX (correctionStep (rotX (rad (-170)))) < rad (-1) ∧
    specCloserBound (measuredAngleX (correctionStep (rotX (rad (-170)))))
      (rad (-1)) (rad 179) = rad 179 ∧
    clampToXAxisMat (rotX (rad (-170))) true (rad (-1)) (rad 179)
      ≠ rotX (specCloserBound (measuredAngleX (correctionStep (rotX (rad (-170)))))
          (rad (-1)) (rad 179)) := by
  have hπ := Real.pi_pos
  have hc : correctionStep (rotX (rad (-170))) = rotX (rad (-170)) :=
    correctionStep_of_fixes (rotX_mulVec_unitX _)
  have hβ1 : -Real.pi < rad (-170) := by unfold rad; nlinarith
  have hβ2 : rad (-170) ≤ Real.pi := by unfold rad; nlinarith
  have hrv : measuredAngleX (correctionStep (rotX (rad (-170)))) = rad (-170) := by
    rw [hc, measuredAngleX_rotX hβ1 hβ2]
  have hout : measuredAngleX (correctionStep (rotX (rad (-170)))) < rad (-1) := by
    rw [hrv]; unfold rad; nlinarith
  have hrvneg : rad (-170) < 0 := by unfold rad; nlinarith
  have hspec : specCloserBound (rad (-170)) (rad (-1)) (rad 179) = rad 179 := by
    unfold specCloserBound
    rw [if_pos hrvneg, if_pos hrvneg, if_neg (by unfold rad; nlinarith)]
  have hcode : hingeChooseBound (rad (-170)) (rad (-1)) (rad 179) = rad (-1) := by
    unfold hingeChooseBound
    rw [if_pos hrvneg, if_pos hrvneg, if_pos (by unfold rad; nlinarith)]
  refine ⟨hout, by rw [hrv]; exact hspec, ?_⟩
  have hres : clampToXAxisMat (rotX (rad (-170))) true (rad (-1)) (rad 179)
      = rotX (rad (-1)) := by
    unfold clampToXAxisMat
    simp only [Bool.not_true, Bool.false_eq_true, if_false]
    rw [if_neg (by rw [hc, measuredAngleX_rotX hβ1 hβ2]; push_neg; intro h2; unfold rad; nlinarith)]
    rw [hc, measuredAngleX_rotX hβ1 hβ2, hcode]
  rw [hres, hrv, hspec]
  intro heq
  have h11 := congrFun (congrFun heq 1) 1
  simp [rotX] at h11
  have hcos1 : 0 < Real.cos (rad (-1)) := by
    apply Real.cos_pos_of_mem_Ioo
    constructor <;> (unfold rad; nlinarith)
  have hcos2 : Real.cos (rad 179) < 0 := by
    apply Real.cos_neg_of_pi_div_two_lt_of_lt <;> (unfold rad; nlinarith)
  nlinarith [h11]

/-- C3 amended.  Whenever the configured bounds satisfy
`min_angle + max_angle ≤ 0` — as at every call site in this code
(`[-90°, 10°]` and `[-90°, 40°]`) — and the measured angle exceeds `-π`
(always true for a two-argument arctangent), the bound the implementation
picks coincides with the wrap-around-closest bound of the specification; the
discrepancy exercised by the counterexample requires
`min_angle + max_angle > 0`. -/
theorem C3_amended_bound_choice (rv minA maxA : ℝ) (hrv : -Real.pi < rv)
    (hsum : minA + maxA ≤ 0) :
    hingeChooseBound rv minA maxA = specCloserBound rv minA maxA := by
  have hπ := Real.pi_pos
  unfold hingeChooseBound specCloserBound
  by_cases hneg : rv < 0
  · simp only [if_pos hneg]
    rw [if_pos (by linarith), if_pos (by linarith)]
  · simp only [if_neg hneg]
    have harr : minA - (-(2 * Real.pi) + rv) = minA - (rv - 2 * Real.pi) := by
      ring
    rw [harr]

/-- Witness for the amended C3 theorem at a concrete out-of-range input. -/
theorem C3_amended_bound_choice_witness :
    (-Real.pi < (-2 : ℝ) ∧ (-(1/2) : ℝ) + 0 ≤ 0) ∧
    hingeChooseBound (-2) (-(1/2)) 0 = specCloserBound (-2) (-(1/2)) 0 := by
  have h1 : -Real.pi < (-2 : ℝ) := by nlinarith [Real.pi_gt_three]
  have h2 : (-(1/2) : ℝ) + 0 ≤ 0 := by norm_num
  exact ⟨⟨h1, h2⟩, C3_amended_bound_choice (-2) (-(1/2)) 0 h1 h2⟩

/-! ## SwingTwistClamp: `clamp_proximals` (kinematic_main.cpp lines 289-359) -/

/-- The hemisphere guard of `clamp_proximals` (lines 345-349): a swung
forward axis pointing behind the hemisphere (`z > 0`) has its z-component
replaced by `-0.000001`; a non-positive component is kept unchanged. -/
def hemisphereGuardZ (z : ℝ) : ℝ := if z > 0 then -(1/1000000) else z

/-- Full `clamp_proximals` on a bone's local rotation matrix
(lines 289-359): swing/twist decomposition about the canonical forward axis
`-UnitZ`, twist-angle clamp to `±max_swing_angle`, hemisphere guard,
tangent-space clamp of the swing direction, and recomposition.  The
Eigen `AngleAxis` round-trip of the unclamped twist is modelled as the twist
matrix itself, and `setFromTwoVectors` receives the unit vectors the source
passes it (`our_z` is unit for rotation inputs; the second call normalizes
explicitly, as in the source). -/
def clampProximalsMat (r : M3)
    (maxSwingAngle tanangleLeft tanangleRight tanangleCurled tanangleUncurled : ℝ) :
    M3 :=
  let ourZ := r.mulVec negUnitZ
  let simple := minRotMat negUnitZ ourZ
  let twist := r * simple⁻¹
  let twistClamped :=
    if |angleOf twist| > maxSwingAngle then
      rodrigues (axisOf twist) (maxSwingAngle * (angleOf twist / |angleOf twist|))
    else twist
  let zg := hemisphereGuardZ (ourZ 2)
  let scaled : V3 := (-1 / zg) • ![ourZ 0, ourZ 1, zg]
  let cx := clampR (scaled 0) tanangleLeft tanangleRight
  let cy := clampR (scaled 1) tanangleCurled tanangleUncurled
  let simple2 := minRotMat negUnitZ (normalize3 ![cx, cy, scaled 2])
  twistClamped * simple2

/-- The twist-angle magnitude of a rotation, per the specification's
decomposition (spec §4.3 SwingTwistClamp): the swing is the minimal rotation
taking the canonical forward axis to the rotated forward axis, the twist is
`rotation ∘ swing⁻¹`, and the magnitude is the canonical rotation angle of
that twist. -/
def specTwistAngle (r : M3) : ℝ :=
  angleOf (r * (minRotMat negUnitZ (r.mulVec negUnitZ))⁻¹)

/-- A rotation by 90° about X: it swings the forward axis exactly onto the
hemisphere boundary. -/
def boundaryRot : M3 := !![1, 0, 0; 0, 0, -1; 0, 1, 0]

/-- C5 counterexample: `boundaryRot` is a proper rotation whose swung forward
axis has z-component exactly `0`; the `z > 0` guard leaves it at `0`, so the
subsequent tangent computation divides by zero — the claim that the division
is well-defined for every input rotation fails on the hemisphere boundary. -/
theorem C5_counterexample :
    (boundaryRotᵀ * boundaryRot = 1) ∧
    hemisphereGuardZ ((boundaryRot.mulVec negUnitZ) 2) = 0 := by
  constructor
  · have ht : boundaryRotᵀ = !![1, 0, 0; 0, 0, 1; 0, -1, 0] := by
      ext i j
      fin_cases i <;> fin_cases j <;>
        simp [boundaryRot, Matrix.transpose_apply, Matrix.vecHead,
          Matrix.vecTail, Function.comp]
    rw [ht]
    ext i j
    fin_cases i <;> fin_cases j <;>
      simp [boundaryRot, Matrix.mul_apply, Fin.sum_univ_three,
        Matrix.one_apply, Matrix.vecHead, Matrix.vecTail, Function.comp]
  · have hv : (boundaryRot.mulVec negUnitZ) 2 = 0 := by
      simp [boundaryRot, negUnitZ, Matrix.mulVec, Matrix.dotProduct,
        Fin.sum_univ_three]
    rw [hv]
    unfold hemisphereGuardZ
    rw [if_neg (by norm_num)]

/-- C5 amended.  The guard makes the divisor strictly negative — hence the
tangent division well-defined — for every input rotation whose swung forward
axis does not lie exactly on the hemisphere boundary (z-component nonzero);
on the boundary itself the division is by zero. -/
theorem C5_amended_guard_negative (r : M3)
    (hz : (r.mulVec negUnitZ) 2 ≠ 0) :
    hemisphereGuardZ ((r.mulVec negUnitZ) 2) < 0 := by
  unfold hemisphereGuardZ
  by_cases h : (r.mulVec negUnitZ) 2 > 0
  · rw [if_pos h]; norm_num
  · rw [if_neg h]
    push_neg at h
    exact lt_of_le_of_ne h hz

/-- Witness for the amended C5 theorem at the identity rotation. -/
theorem C5_amended_guard_negative_witness :
    (((1 : M3).mulVec negUnitZ) 2 ≠ 0) ∧
    hemisphereGuardZ (((1 : M3).mulVec negUnitZ) 2) < 0 := by
  have hz : ((1 : M3).mulVec negUnitZ) 2 = -1 := by
    simp [negUnitZ, Matrix.mulVec, Matrix.dotProduct, Fin.sum_univ_three,
      Matrix.one_apply]
  refine ⟨by rw [hz]; norm_num, C5_amended_guard_negative 1 (by rw [hz]; norm_num)⟩

def c6D : V3 := ![12/13, 3/13, -4/13]

def c6Input : M3 :=
  !![-69/493, 2296/6409, -12/13; -268/493, -5172/6409, -3/13; -24/29, 177/377, 4/13]

def c6S : M3 :=
  !![77/221, -36/221, -12/13; -36/221, 212/221, -3/13; 12/13, 3/13, 4/13]

def c6ST : M3 :=
  !![77/221, -36/221, 12/13; -36/221, 212/221, 3/13; -12/13, -3/13, 4/13]

def c6T : M3 :=
  !![3651/4901, 2840/4901, -1620/4901; 760/4901, -3099/4901, -3720/4901; -3180/4901, 2520/4901, -2749/4901]

def c6S2 : M3 := !![1, 0, 0; 0, 4/5, -3/5; 0, 3/5, 4/5]

def c6Result : M3 :=
  !![3651/4901, 100/377, -3000/4901; 760/4901, -1812/1885, -5583/24505; -3180/4901, 141/1885, -18556/24505]

theorem c6_hourz : c6Input.mulVec negUnitZ = c6D := by
  funext i
  fin_cases i <;>
    norm_num [c6Input, c6D, negUnitZ, Matrix.mulVec, Matrix.dotProduct,
      Fin.sum_univ_three, Matrix.vecHead, Matrix.vecTail, Function.comp, Fin.ext_iff]

theorem c6_hS : minRotMat negUnitZ c6D = c6S := by
  unfold minRotMat
  rw [if_neg (by norm_num [dot3, negUnitZ, c6D, Matrix.vecHead, Matrix.vecTail,
    Function.comp])]
  ext i j
  fin_cases i <;> fin_cases j <;>
    norm_num [dot3, cross3, crossMat, negUnitZ, c6D, c6S, Matrix.mul_apply,
      Matrix.add_apply, Matrix.smul_apply, Matrix.one_apply,
      Fin.sum_univ_three, Matrix.vecHead, Matrix.vecTail, Function.comp, Fin.ext_iff]

theorem c6_hSST : c6S * c6ST = 1 := by
  ext i j
  fin_cases i <;> fin_cases j <;>
    norm_num [c6S, c6ST, Matrix.mul_apply, Fin.sum_univ_three,
      Matrix.one_apply, Matrix.vecHead, Matrix.vecTail, Function.comp, Fin.ext_iff]

theorem c6_hSinv : c6S⁻¹ = c6ST := Matrix.inv_eq_right_inv c6_hSST

theorem c6_hTwist : c6Input * c6ST = c6T := by
  ext i j
  fin_cases i <;> fin_cases j <;>
    norm_num [c6Input, c6ST, c6T, Matrix.mul_apply, Fin.sum_univ_three,
      Matrix.vecHead, Matrix.vecTail, Function.comp, Fin.ext_iff]

theorem c6_htrace : Matrix.trace c6T = -13/29 := by
  norm_num [Matrix.trace, Matrix.diag, Fin.sum_univ_three, c6T,
    Matrix.vecHead, Matrix.vecTail, Function.comp, Fin.ext_iff]

theorem c6_hangle : angleOf c6T = Real.arccos (-(21/29)) := by
  unfold angleOf
  rw [c6_htrace]
  norm_num

theorem c6_hnorm : normalize3 ![0, 3/4, -1] = ![0, 3/5, -4/5] := by
  unfold normalize3
  have hd : dot3 ![0, 3/4, -1] ![0, 3/4, -1] = 25/16 := by
    norm_num [dot3, Matrix.vecHead, Matrix.vecTail, Function.comp, Fin.ext_iff]
  rw [hd, show (25/16 : ℝ) = (5/4)^2 by norm_num, Real.sqrt_sq (by norm_num)]
  funext i
  fin_cases i <;>
    norm_num [Matrix.vecHead, Matrix.vecTail, Function.comp, Fin.ext_iff]

theorem c6_hS2 : minRotMat negUnitZ ![0, 3/5, -4/5] = c6S2 := by
  unfold minRotMat
  rw [if_neg (by norm_num [dot3, negUnitZ, Matrix.vecHead, Matrix.vecTail,
    Function.comp])]
  ext i j
  fin_cases i <;> fin_cases j <;>
    norm_num [dot3, cross3, crossMat, negUnitZ, c6S2, Matrix.mul_apply,
      Matrix.add_apply, Matrix.smul_apply, Matrix.one_apply,
      Fin.sum_univ_three, Matrix.vecHead, Matrix.vecTail, Function.comp, Fin.ext_iff]

theorem c6_hfinal : c6T * c6S2 = c6Result := by
  ext i j
  fin_cases i <;> fin_cases j <;>
    norm_num [c6T, c6S2, c6Result, Matrix.mul_apply, Fin.sum_univ_three,
      Matrix.vecHead, Matrix.vecTail, Function.comp, Fin.ext_iff]

theorem c6_eval :
    clampProximalsMat c6Input (Real.arccos (-(21/29))) 0 0 (-2) 2 = c6Result := by
  simp only [clampProximalsMat, c6_hourz, c6_hS, c6_hSinv, c6_hTwist, c6_hangle]
  rw [abs_of_nonneg (Real.arccos_nonneg _), if_neg (lt_irrefl _)]
  rw [← c6_hfinal]
  congr 1
  have hvec : (![clampR (((-1 / hemisphereGuardZ (c6D 2)) •
        (![c6D 0, c6D 1, hemisphereGuardZ (c6D 2)] : V3)) 0) 0 0,
      clampR (((-1 / hemisphereGuardZ (c6D 2)) •
        (![c6D 0, c6D 1, hemisphereGuardZ (c6D 2)] : V3)) 1) (-2) 2,
      ((-1 / hemisphereGuardZ (c6D 2)) •
        (![c6D 0, c6D 1, hemisphereGuardZ (c6D 2)] : V3)) 2] : V3)
      = ![0, 3/4, -1] := by
    funext i
    fin_cases i <;>
      norm_num [clampR, hemisphereGuardZ, c6D, max_def, min_def,
        Matrix.vecHead, Matrix.vecTail, Function.comp, Fin.ext_iff]
  rw [hvec, c6_hnorm, c6_hS2]

def c6F : V3 := ![3000/4901, 5583/24505, 18556/24505]

def c6S3 : M3 :=
  !![-1760439/3239561, -1861000/3239561, -3000/4901;
     -1861000/3239561, 12734484/16197805, -5583/24505;
     3000/4901, 5583/24505, -18556/24505]

def c6S3T : M3 :=
  !![-1760439/3239561, -1861000/3239561, 3000/4901;
     -1861000/3239561, 12734484/16197805, 5583/24505;
     -3000/4901, -5583/24505, -18556/24505]

def c6TW : M3 :=
  !![-2897662789/15877088461, -1269327360/15877088461, 23538180/24019801;
     9643827360/15877088461, -12589168339/15877088461, 1163400/24019801;
     12275263020/15877088461, 9590807400/15877088461, 4642351/24019801]

theorem c6_hF : c6Result.mulVec negUnitZ = c6F := by
  funext i
  fin_cases i <;>
    norm_num [c6Result, c6F, negUnitZ, Matrix.mulVec, Matrix.dotProduct,
      Fin.sum_univ_three, Matrix.vecHead, Matrix.vecTail, Function.comp, Fin.ext_iff]

theorem c6_hS3 : minRotMat negUnitZ c6F = c6S3 := by
  unfold minRotMat
  rw [if_neg (by norm_num [dot3, negUnitZ, c6F, Matrix.vecHead, Matrix.vecTail,
    Function.comp, Fin.ext_iff])]
  ext i j
  fin_cases i <;> fin_cases j <;>
    norm_num [dot3, cross3, crossMat, negUnitZ, c6F, c6S3, Matrix.mul_apply,
      Matrix.add_apply, Matrix.smul_apply, Matrix.one_apply,
      Fin.sum_univ_three, Matrix.vecHead, Matrix.vecTail, Function.comp, Fin.ext_iff]

theorem c6_hS3ST : c6S3 * c6S3T = 1 := by
  ext i j
  fin_cases i <;> fin_cases j <;>
    norm_num [c6S3, c6S3T, Matrix.mul_apply, Fin.sum_univ_three,
      Matrix.one_apply, Matrix.vecHead, Matrix.vecTail, Function.comp, Fin.ext_iff]

theorem c6_hS3inv : c6S3⁻¹ = c6S3T := Matrix.inv_eq_right_inv c6_hS3ST

theorem c6_hTW : c6Result * c6S3T = c6TW := by
  ext i j
  fin_cases i <;> fin_cases j <;>
    norm_num [c6Result, c6S3T, c6TW, Matrix.mul_apply, Fin.sum_univ_three,
      Matrix.vecHead, Matrix.vecTail, Function.comp, Fin.ext_iff]

theorem c6_htraceTW : Matrix.trace c6TW = -517/661 := by
  norm_num [Matrix.trace, Matrix.diag, Fin.sum_univ_three, c6TW,
    Matrix.vecHead, Matrix.vecTail, Function.comp, Fin.ext_iff]

theorem c6_spec : specTwistAngle c6Result = Real.arccos (-(589/661)) := by
  unfold specTwistAngle
  rw [c6_hF, c6_hS3, c6_hS3inv, c6_hTW]
  unfold angleOf
  rw [c6_htraceTW]
  norm_num

theorem c6_arccos_gap :
    Real.arccos (-(589/661)) > Real.arccos (-(21/29)) + 1/10 := by
  have hπ3 := Real.pi_gt_three
  have hcx : Real.cos (Real.arccos (-(589/661))) = -(589/661) :=
    Real.cos_arccos (by norm_num) (by norm_num)
  have hcy : Real.cos (Real.arccos (-(21/29))) = -(21/29) :=
    Real.cos_arccos (by norm_num) (by norm_num)
  have hy0 : 0 ≤ Real.arccos (-(21/29)) := Real.arccos_nonneg _
  have hsy1 : Real.sin (Real.arccos (-(21/29))) ≤ 1 := Real.sin_le_one _
  have hsy0 : 0 ≤ Real.sin (Real.arccos (-(21/29))) :=
    Real.sin_nonneg_of_nonneg_of_le_pi hy0 (Real.arccos_le_pi _)
  have hcos110 : (199/200 : ℝ) ≤ Real.cos (1/10) := by
    have hc2 : Real.cos (2 * (1/20)) = 2 * Real.cos (1/20) ^ 2 - 1 :=
      Real.cos_two_mul _
    have hsc : Real.sin (1/20) ^ 2 + Real.cos (1/20) ^ 2 = 1 :=
      Real.sin_sq_add_cos_sq _
    have hs20 : Real.sin (1/20) ≤ 1/20 := le_of_lt (Real.sin_lt (by norm_num))
    have hs20n : 0 ≤ Real.sin (1/20) :=
      Real.sin_nonneg_of_nonneg_of_le_pi (by norm_num) (by linarith)
    have h210 : (2 : ℝ) * (1/20) = 1/10 := by norm_num
    rw [h210] at hc2
    nlinarith
  have harc110 : (1/10 : ℝ) ≤ Real.arccos (21/29) := by
    by_contra hlt
    push_neg at hlt
    have := Real.cos_lt_cos_of_nonneg_of_le_pi (Real.arccos_nonneg (21/29))
      (by linarith) hlt
    rw [Real.cos_arccos (by norm_num) (by norm_num)] at this
    linarith
  have hy_pi : Real.arccos (-(21/29)) + 1/10 ≤ Real.pi := by
    rw [Real.arccos_neg]
    linarith
  by_contra hle
  push_neg at hle
  have hmono : Real.cos (Real.arccos (-(21/29)) + 1/10)
      ≤ Real.cos (Real.arccos (-(589/661))) :=
    Real.cos_le_cos_of_nonneg_of_le_pi (Real.arccos_nonneg _) hy_pi hle
  have hexp : Real.cos (Real.arccos (-(21/29)) + 1/10)
      = Real.cos (Real.arccos (-(21/29))) * Real.cos (1/10)
        - Real.sin (Real.arccos (-(21/29))) * Real.sin (1/10) :=
    Real.cos_add _ _
  have hs110 : Real.sin (1/10) ≤ 1/10 := le_of_lt (Real.sin_lt (by norm_num))
  have hs110n : 0 ≤ Real.sin (1/10) :=
    Real.sin_nonneg_of_nonneg_of_le_pi (by norm_num) (by linarith)
  have hc110le : Real.cos (1/10) ≤ 1 := Real.cos_le_one _
  nlinarith [hmono, hexp, hcx, hcy]

/-- C6 counterexample.  A SwingTwistClamp call with
`max_swing_angle = θ = arccos(-21/29)` (≈136.4°, and `θ ≥ 0`), tangent bounds
`[0,0] × [-2,2]`, on a proper input rotation whose twist is within `θ` (so
the angle clamp does not engage) but whose swing direction is altered by the
tangent-space clamp, produces a rotation whose twist-angle magnitude — per
the claim's own decomposition `twist = rotation ∘ swing⁻¹` — exceeds
`θ + 0.1` rad, refuting the `θ + ε` bound. -/
theorem C6_counterexample :
    0 ≤ Real.arccos (-(21/29)) ∧
    specTwistAngle (clampProximalsMat c6Input (Real.arccos (-(21/29))) 0 0 (-2) 2)
      > Real.arccos (-(21/29)) + 1/10 := by
  refine ⟨Real.arccos_nonneg _, ?_⟩
  rw [c6_eval, c6_spec]
  exact c6_arccos_gap

theorem angleOf_nonneg (m : M3) : 0 ≤ angleOf m := Real.arccos_nonneg _

theorem clampR_of_le {v lo hi : ℝ} (h1 : lo ≤ v) (h2 : v ≤ hi) :
    clampR v lo hi = v := by
  unfold clampR
  rw [min_eq_left h2, max_eq_right h1]

theorem vec3_eta (v : V3) : (![v 0, v 1, v 2] : V3) = v := by
  funext i
  fin_cases i <;> simp


/-- The raw skew part of a matrix, read off as a vector; this is the
unnormalized axis Eigen's `AngleAxisf` extracts. -/
def skewVec (m : M3) : V3 := ![m 2 1 - m 1 2, m 0 2 - m 2 0, m 1 0 - m 0 1]

theorem axisOf_eq (m : M3) :
    axisOf m = (2 * Real.sin (angleOf m))⁻¹ • skewVec m := rfl

theorem crossMat_skewVec (m : M3) : crossMat (skewVec m) = m - mᵀ := by
  ext i j
  fin_cases i <;> fin_cases j <;>
    simp [crossMat, skewVec, Matrix.sub_apply, Matrix.transpose_apply]

theorem cross3_smul_left (k : ℝ) (v w : V3) :
    cross3 (k • v) w = k • cross3 v w := by
  funext i
  fin_cases i <;> simp [cross3] <;> ring

/-- An orthogonal matrix that fixes a vector has its skew part parallel to
that vector: the cross product vanishes. -/
theorem cross3_skewVec_fixed {m : M3} {d : V3} (horth : mᵀ * m = 1)
    (hfix : m.mulVec d = d) : cross3 (skewVec m) d = 0 := by
  have hTt : mᵀ.mulVec d = d := by
    conv_lhs => rw [← hfix]
    rw [Matrix.mulVec_mulVec, horth, Matrix.one_mulVec]
  rw [← crossMat_mulVec, crossMat_skewVec, Matrix.sub_mulVec, hfix, hTt,
    sub_self]

/-- A Rodrigues rotation about an axis whose cross product with `d`
vanishes fixes `d`. -/
theorem rodrigues_mulVec_fixed {u d : V3} (h : cross3 u d = 0) (β : ℝ) :
    (rodrigues u β).mulVec d = d := by
  unfold rodrigues
  rw [Matrix.add_mulVec, Matrix.add_mulVec, Matrix.one_mulVec,
    Matrix.smul_mulVec_assoc, Matrix.smul_mulVec_assoc,
    ← Matrix.mulVec_mulVec, crossMat_mulVec, h, Matrix.mulVec_zero]
  simp

theorem trace_crossMat (v : V3) : Matrix.trace (crossMat v) = 0 := by
  simp [Matrix.trace, Matrix.diag, Fin.sum_univ_three, crossMat]

theorem trace_crossMat_mul_self (v : V3) :
    Matrix.trace (crossMat v * crossMat v) = -(2 * dot3 v v) := by
  simp [Matrix.trace, Matrix.diag, Fin.sum_univ_three, Matrix.mul_apply,
    crossMat, dot3]
  ring

theorem trace_rodrigues (u : V3) (β : ℝ) :
    Matrix.trace (rodrigues u β) = 3 - 2 * (1 - Real.cos β) * dot3 u u := by
  unfold rodrigues
  rw [Matrix.trace_add, Matrix.trace_add, Matrix.trace_one, Matrix.trace_smul,
    Matrix.trace_smul, trace_crossMat, trace_crossMat_mul_self]
  simp [Fintype.card_fin]
  ring

theorem angleOf_rodrigues (u : V3) (β : ℝ) :
    angleOf (rodrigues u β)
      = Real.arccos (1 - (1 - Real.cos β) * dot3 u u) := by
  unfold angleOf
  rw [trace_rodrigues]
  congr 1
  ring

/-- Unconditional polynomial identity tying together trace deviation, skew
norm, determinant, singularity of `m - 1`, and the Gram trace. -/
theorem skew_trace_det_identity (m : M3) :
    (Matrix.trace m - 1) ^ 2 + dot3 (skewVec m) (skewVec m)
      = 2 * m.det - 2 * (m - 1).det - 1 + Matrix.trace (m * mᵀ) := by
  rw [Matrix.det_fin_three, Matrix.det_fin_three]
  simp [Matrix.trace, Matrix.diag, Fin.sum_univ_three, Matrix.mul_apply,
    Matrix.transpose_apply, Matrix.sub_apply, Matrix.one_apply, skewVec, dot3,
    Fin.ext_iff]
  ring

/-- For an orthogonal matrix fixing a unit vector, the squared trace
deviation plus the squared skew norm is at most `4` (it is `2 det + 2`). -/
theorem skew_bound_of_orth_fixed {m : M3} {d : V3} (horth : mᵀ * m = 1)
    (hfix : m.mulVec d = d) (hd : dot3 d d = 1) :
    (Matrix.trace m - 1) ^ 2 + dot3 (skewVec m) (skewVec m) ≤ 4 := by
  have hdet2 : m.det * m.det = 1 := by
    have h := congrArg Matrix.det horth
    rwa [Matrix.det_mul, Matrix.det_transpose, Matrix.det_one] at h
  have hdet_le : m.det ≤ 1 := by nlinarith
  have hdne : d ≠ 0 := by
    intro h0
    rw [h0] at hd
    simp [dot3] at hd
  have hsing : (m - 1).det = 0 := by
    rw [← Matrix.exists_mulVec_eq_zero_iff]
    refine ⟨d, hdne, ?_⟩
    rw [Matrix.sub_mulVec, hfix, Matrix.one_mulVec, sub_self]
  have hmmT : m * mᵀ = 1 := Matrix.mul_eq_one_comm.mp horth
  rw [skew_trace_det_identity, hsing, hmmT, Matrix.trace_one]
  simp [Fintype.card_fin]
  linarith

theorem dot3_smul_self (k : ℝ) (v : V3) :
    dot3 (k • v) (k • v) = k ^ 2 * dot3 v v := by
  simp [dot3]
  ring

/-- The extracted rotation axis of an orthogonal matrix fixing a unit vector
has squared norm at most `1`. -/
theorem axisOf_norm_le_one {m : M3} {d : V3} (horth : mᵀ * m = 1)
    (hfix : m.mulVec d = d) (hd : dot3 d d = 1) :
    dot3 (axisOf m) (axisOf m) ≤ 1 := by
  have hbound := skew_bound_of_orth_fixed horth hfix hd
  have hskew := dot3_self_nonneg (skewVec m)
  have hsq : dot3 (axisOf m) (axisOf m)
      = ((2 * Real.sin (angleOf m))⁻¹) ^ 2 * dot3 (skewVec m) (skewVec m) := by
    rw [axisOf_eq, dot3_smul_self]
  have hsin : Real.sin (angleOf m)
      = Real.sqrt (1 - ((Matrix.trace m - 1) / 2) ^ 2) := by
    unfold angleOf
    rw [Real.sin_arccos]
  rcases le_or_lt (1 - ((Matrix.trace m - 1) / 2) ^ 2) 0 with hneg | hpos
  · have hskew0 : dot3 (skewVec m) (skewVec m) = 0 := by nlinarith
    rw [hsq, hskew0, mul_zero]
    norm_num
  · have h4 : (2 * Real.sin (angleOf m)) ^ 2
        = 4 * (1 - ((Matrix.trace m - 1) / 2) ^ 2) := by
      rw [hsin, mul_pow, Real.sq_sqrt hpos.le]
      ring
    have hk2 : ((2 * Real.sin (angleOf m))⁻¹) ^ 2
        = (4 * (1 - ((Matrix.trace m - 1) / 2) ^ 2))⁻¹ := by
      rw [inv_pow, h4]
    rw [hsq, hk2, inv_mul_le_iff₀ (by linarith)]
    nlinarith

/-- The canonical angle of any cosine value at least `cos θ` is at most `θ`,
for nonnegative `θ`. -/
theorem arccos_le_of_cos_le {z θ : ℝ} (hθ : 0 ≤ θ) (hz1 : -1 ≤ z) (hz2 : z ≤ 1)
    (hcz : Real.cos θ ≤ z) : Real.arccos z ≤ θ := by
  rcases le_or_lt θ Real.pi with hpi | hpi
  · by_contra hlt
    push_neg at hlt
    have hc := Real.cos_le_cos_of_nonneg_of_le_pi hθ (Real.arccos_le_pi z) hlt.le
    rw [Real.cos_arccos hz1 hz2] at hc
    have hzeq : z = Real.cos θ := le_antisymm hc hcz
    rw [hzeq, Real.arccos_cos hθ hpi] at hlt
    exact lt_irrefl θ hlt
  · exact le_trans (Real.arccos_le_pi z) hpi.le

/-- Transporting a vector equation through an orthogonal matrix. -/
theorem transpose_mulVec_of_mulVec {S : M3} {a b : V3} (horth : Sᵀ * S = 1)
    (hab : S.mulVec a = b) : Sᵀ.mulVec b = a := by
  rw [← hab, Matrix.mulVec_mulVec, horth, Matrix.one_mulVec]

/-- C6 amended.  Whenever the tangent-space swing clamp leaves the swing
direction unchanged — the input rotation is orthogonal, its swung forward
axis points strictly into the front hemisphere, and its tangent coordinates
lie within the configured bounds — the rotation returned by
`clamp_proximals` has twist magnitude (per the specification's swing/twist
decomposition) at most `θ`, for every `θ ≥ 0`: if the twist was already
within `θ` the call returns the rotation unchanged, and if the twist clamp
fires, the recomposed rotation's twist comes out as
`arccos(1 - |axis|²(1 - cos θ)) ≤ θ`.  Only when the tangent clamp moves the
swing direction can the bound fail (see the counterexample). -/
theorem C6_amended_swing_unchanged_twist_bound (r : M3) (θ tl tr tc tu : ℝ)
    (hθ : 0 ≤ θ)
    (hr : rᵀ * r = 1)
    (hz : (r.mulVec negUnitZ) 2 < 0)
    (htx1 : tl ≤ -1 / (r.mulVec negUnitZ) 2 * (r.mulVec negUnitZ) 0)
    (htx2 : -1 / (r.mulVec negUnitZ) 2 * (r.mulVec negUnitZ) 0 ≤ tr)
    (hty1 : tc ≤ -1 / (r.mulVec negUnitZ) 2 * (r.mulVec negUnitZ) 1)
    (hty2 : -1 / (r.mulVec negUnitZ) 2 * (r.mulVec negUnitZ) 1 ≤ tu) :
    specTwistAngle (clampProximalsMat r θ tl tr tc tu) ≤ θ := by
  have h22 := congrFun (congrFun hr 2) 2
  simp [Matrix.mul_apply, Matrix.transpose_apply, Fin.sum_univ_three,
    Matrix.one_apply] at h22
  have hdu : dot3 (r.mulVec negUnitZ) (r.mulVec negUnitZ) = 1 := by
    simp [dot3, Matrix.mulVec, Matrix.dotProduct, Fin.sum_univ_three, negUnitZ]
    linear_combination h22
  have hnu : dot3 negUnitZ negUnitZ = 1 := by norm_num [dot3, negUnitZ]
  have hcd : dot3 negUnitZ (r.mulVec negUnitZ) = -((r.mulVec negUnitZ) 2) := by
    simp [dot3, negUnitZ]
  have hc : 1 + dot3 negUnitZ (r.mulVec negUnitZ) ≠ 0 := by
    rw [hcd]; nlinarith
  have hk : 0 < -1 / (r.mulVec negUnitZ) 2 :=
    div_pos_of_neg_of_neg (by norm_num) hz
  have heval : clampProximalsMat r θ tl tr tc tu
      = (if |angleOf (r * (minRotMat negUnitZ (r.mulVec negUnitZ))⁻¹)| > θ then
          rodrigues (axisOf (r * (minRotMat negUnitZ (r.mulVec negUnitZ))⁻¹))
            (θ * (angleOf (r * (minRotMat negUnitZ (r.mulVec negUnitZ))⁻¹) /
              |angleOf (r * (minRotMat negUnitZ (r.mulVec negUnitZ))⁻¹)|))
        else r * (minRotMat negUnitZ (r.mulVec negUnitZ))⁻¹)
        * minRotMat negUnitZ (r.mulVec negUnitZ) := by
    simp only [clampProximalsMat]
    have hzg : hemisphereGuardZ ((r.mulVec negUnitZ) 2) = (r.mulVec negUnitZ) 2 := by
      unfold hemisphereGuardZ
      rw [if_neg (not_lt.mpr hz.le)]
    rw [hzg, vec3_eta (r.mulVec negUnitZ)]
    have hsm : ∀ i, ((-1 / (r.mulVec negUnitZ) 2) • r.mulVec negUnitZ) i
        = -1 / (r.mulVec negUnitZ) 2 * (r.mulVec negUnitZ) i := by
      intro i; simp
    rw [hsm 0, hsm 1, hsm 2, clampR_of_le htx1 htx2, clampR_of_le hty1 hty2]
    have hvec2 : (![-1 / (r.mulVec negUnitZ) 2 * (r.mulVec negUnitZ) 0,
        -1 / (r.mulVec negUnitZ) 2 * (r.mulVec negUnitZ) 1,
        -1 / (r.mulVec negUnitZ) 2 * (r.mulVec negUnitZ) 2] : V3)
        = (-1 / (r.mulVec negUnitZ) 2) • r.mulVec negUnitZ := by
      funext i
      fin_cases i <;> simp
    rw [hvec2, normalize3_smul_of_unit hdu hk]
  rw [heval, abs_of_nonneg (angleOf_nonneg _)]
  by_cases hA : angleOf (r * (minRotMat negUnitZ (r.mulVec negUnitZ))⁻¹) > θ
  · rw [if_pos hA]
    have hA0 : angleOf (r * (minRotMat negUnitZ (r.mulVec negUnitZ))⁻¹) ≠ 0 :=
      ne_of_gt (lt_of_le_of_lt hθ hA)
    rw [div_self hA0, mul_one]
    have hSd : (minRotMat negUnitZ (r.mulVec negUnitZ)).mulVec negUnitZ
        = r.mulVec negUnitZ := minRotMat_mulVec hnu hdu
    have hSTS := minRotMat_transpose_mul hnu hdu hc
    have hSinv := minRotMat_inv_eq_transpose hnu hdu hc
    have hSST : minRotMat negUnitZ (r.mulVec negUnitZ)
        * (minRotMat negUnitZ (r.mulVec negUnitZ))ᵀ = 1 :=
      Matrix.mul_eq_one_comm.mp hSTS
    have hTt : (minRotMat negUnitZ (r.mulVec negUnitZ))ᵀ.mulVec (r.mulVec negUnitZ)
        = negUnitZ := transpose_mulVec_of_mulVec hSTS hSd
    have hT_orth : (r * (minRotMat negUnitZ (r.mulVec negUnitZ))⁻¹)ᵀ
        * (r * (minRotMat negUnitZ (r.mulVec negUnitZ))⁻¹) = 1 := by
      rw [hSinv, Matrix.transpose_mul, Matrix.transpose_transpose,
        Matrix.mul_assoc, ← Matrix.mul_assoc rᵀ r, hr, Matrix.one_mul, hSST]
    have hT_fix : (r * (minRotMat negUnitZ (r.mulVec negUnitZ))⁻¹).mulVec
        (r.mulVec negUnitZ) = r.mulVec negUnitZ := by
      rw [hSinv, ← Matrix.mulVec_mulVec, hTt]
    have hu0 : cross3 (axisOf (r * (minRotMat negUnitZ (r.mulVec negUnitZ))⁻¹))
        (r.mulVec negUnitZ) = 0 := by
      rw [axisOf_eq, cross3_smul_left,
        cross3_skewVec_fixed hT_orth hT_fix, smul_zero]
    have hrod_fix : (rodrigues
        (axisOf (r * (minRotMat negUnitZ (r.mulVec negUnitZ))⁻¹)) θ).mulVec
        (r.mulVec negUnitZ) = r.mulVec negUnitZ :=
      rodrigues_mulVec_fixed hu0 θ
    have hres_d : ((rodrigues
        (axisOf (r * (minRotMat negUnitZ (r.mulVec negUnitZ))⁻¹)) θ)
        * minRotMat negUnitZ (r.mulVec negUnitZ)).mulVec negUnitZ
        = r.mulVec negUnitZ := by
      rw [← Matrix.mulVec_mulVec, hSd, hrod_fix]
    have hspec : specTwistAngle ((rodrigues
        (axisOf (r * (minRotMat negUnitZ (r.mulVec negUnitZ))⁻¹)) θ)
        * minRotMat negUnitZ (r.mulVec negUnitZ))
        = angleOf (rodrigues
            (axisOf (r * (minRotMat negUnitZ (r.mulVec negUnitZ))⁻¹)) θ) := by
      unfold specTwistAngle
      rw [hres_d, Matrix.mul_assoc, hSinv, hSST, Matrix.mul_one]
    rw [hspec, angleOf_rodrigues]
    have hsle := axisOf_norm_le_one hT_orth hT_fix hdu
    have hs0 := dot3_self_nonneg
      (axisOf (r * (minRotMat negUnitZ (r.mulVec negUnitZ))⁻¹))
    have hcos1 := Real.cos_le_one θ
    have hcosm1 := Real.neg_one_le_cos θ
    apply arccos_le_of_cos_le hθ
    · nlinarith
    · nlinarith
    · nlinarith
  · rw [if_neg hA, mul_minRotMat_inv_mul_cancel hnu hdu hc r]
    have hspec_r : specTwistAngle r
        = angleOf (r * (minRotMat negUnitZ (r.mulVec negUnitZ))⁻¹) := rfl
    rw [hspec_r]
    exact not_lt.mp hA

/-- Witness for the amended C6 theorem at the identity rotation. -/
theorem C6_amended_swing_unchanged_twist_bound_witness :
    ((0 : ℝ) ≤ 1 ∧ ((1 : M3)ᵀ * 1 = 1) ∧ (((1 : M3).mulVec negUnitZ) 2 < 0)) ∧
    specTwistAngle (clampProximalsMat 1 1 (-1) 1 (-1) 1) ≤ 1 := by
  have hd : (1 : M3).mulVec negUnitZ = negUnitZ := by
    funext i
    simp [Matrix.mulVec, Matrix.dotProduct, Matrix.one_apply, Fin.sum_univ_three,
      negUnitZ, Fin.ext_iff]
    fin_cases i <;> norm_num [negUnitZ, Matrix.vecHead, Matrix.vecTail, Function.comp]
  have hθ : (0 : ℝ) ≤ 1 := by norm_num
  have hr : (1 : M3)ᵀ * 1 = 1 := by rw [Matrix.transpose_one, Matrix.one_mul]
  have hz : ((1 : M3).mulVec negUnitZ) 2 < 0 := by
    rw [hd]; norm_num [negUnitZ]
  have h0 : ((1 : M3).mulVec negUnitZ) 0 = 0 := by rw [hd]; norm_num [negUnitZ]
  have h1 : ((1 : M3).mulVec negUnitZ) 1 = 0 := by rw [hd]; norm_num [negUnitZ]
  have hmain := C6_amended_swing_unchanged_twist_bound 1 1 (-1) 1 (-1) 1 hθ hr hz
    (by rw [h0]; norm_num) (by rw [h0]; norm_num)
    (by rw [h1]; norm_num) (by rw [h1]; norm_num)
  exact ⟨⟨hθ, hr, hz⟩, hmain⟩

/-! ## Hand data model (`kinematic_defines.hpp`, shapes visible from the
usage in `kinematic_main.cpp`)

An affine transform is a linear part plus a translation, as in
`Eigen::Affine3f`; the hand holds five fingers of five bones, the wrist
pose, and the per-frame target buffers. -/

/-- An affine transform (`Eigen::Affine3f`): linear part and translation. -/
structure Affine3 where
  linear : M3
  trans : V3

/-- Apply an affine transform to a point. -/
def affApply (t : Affine3) (v : V3) : V3 := t.linear.mulVec v + t.trans

/-- Composition of affine transforms (`Eigen`'s `*`). -/
def affMul (s t : Affine3) : Affine3 :=
  ⟨s.linear * t.linear, s.linear.mulVec t.trans + s.trans⟩

/-- Affine inverse (`Eigen::Affine3f::inverse()`): invert the linear part
and counter-translate. -/
def affInv (t : Affine3) : Affine3 :=
  ⟨t.linear⁻¹, -(t.linear⁻¹.mulVec t.trans)⟩

/-- One bone: its local relation to the parent, its derived world pose, and
the index of the target keypoint its tip corresponds to. -/
structure bone_t where
  bone_relation : Affine3
  world_pose : Affine3
  keypoint_idx_21 : Fin 21

/-- One finger: five bones, proximal to distal. -/
structure finger_t where
  bones : Fin 5 → bone_t

/-- The per-hand state `kinematic_hand_4f`: five fingers, the wrist pose,
the 21 target keypoints (as array and as 3×21 matrix) and the 3×21 matrix
of current joint world positions. -/
structure kinematic_hand_4f where
  fingers : Fin 5 → finger_t
  wrist_relation : Affine3
  t_jts : Fin 21 → V3
  t_jts_as_mat : Matrix (Fin 3) (Fin 21) ℝ
  kinematic : Matrix (Fin 3) (Fin 21) ℝ

/-- Overwrite the linear part of one bone's local relation, leaving the rest
of the hand unchanged (the in-place `bone->bone_relation.linear() = ...`). -/
def updateBoneRelation (hand : kinematic_hand_4f) (fi bi : Fin 5) (m : M3) :
    kinematic_hand_4f :=
  { hand with
    fingers := Function.update hand.fingers fi
      ⟨Function.update (hand.fingers fi).bones bi
        { (hand.fingers fi).bones bi with
          bone_relation := ⟨m, (((hand.fingers fi).bones bi).bone_relation).trans⟩ }⟩ }

/-- The more-distal bones of a finger (`for idx = bone_idx+1 .. 4`). -/
def boneChildren (bi : Fin 5) : Finset (Fin 5) :=
  Finset.univ.filter (fun idx => bi < idx)

/-- Centroid of the target keypoints of the descendants of a bone
(`target` accumulation of `do_it_for_bone`, lines 114-125). -/
def boneTargetCentroid (hand : kinematic_hand_4f) (fi bi : Fin 5) : V3 :=
  (1 / ((boneChildren bi).card : ℝ)) •
    ∑ idx ∈ boneChildren bi, hand.t_jts (((hand.fingers fi).bones idx).keypoint_idx_21)

/-- Centroid of the current world positions of the descendants of a bone
(`kine` accumulation of `do_it_for_bone`, lines 114-125). -/
def boneKineCentroid (hand : kinematic_hand_4f) (fi bi : Fin 5) : V3 :=
  (1 / ((boneChildren bi).card : ℝ)) •
    ∑ idx ∈ boneChildren bi, ((hand.fingers fi).bones idx).world_pose.trans

/-- The current-centroid direction expressed in the bone's local frame,
before normalization (line 127). -/
def boneLocalKineRaw (hand : kinematic_hand_4f) (fi bi : Fin 5) : V3 :=
  affApply (affInv ((hand.fingers fi).bones bi).world_pose)
    (boneKineCentroid hand fi bi)

/-- The target-centroid direction expressed in the bone's local frame,
before normalization (line 128). -/
def boneLocalTargetRaw (hand : kinematic_hand_4f) (fi bi : Fin 5) : V3 :=
  affApply (affInv ((hand.fingers fi).bones bi).world_pose)
    (boneTargetCentroid hand fi bi)

/-- `do_it_for_bone` (lines 107-136): estimate a bone's local-rotation
correction from the centroids of its descendants.  The final Boolean
parameter mirrors the source's `clamp_to_x_axis_rotation` argument, which
the function body never reads. -/
def do_it_for_bone (hand : kinematic_hand_4f) (fi bi : Fin 5)
    (clampToXAxisRotation : Bool) : kinematic_hand_4f :=
  let rot := minRotMat (normalize3 (boneLocalKineRaw hand fi bi))
    (normalize3 (boneLocalTargetRaw hand fi bi))
  updateBoneRelation hand fi bi
    (((hand.fingers fi).bones bi).bone_relation.linear * rot)

/-- The bone-relation update as claim C2 states it: the shortest-arc
correction left-composed onto the existing local rotation
(`new = correction ∘ old`). -/
def claimedBoneUpdate (hand : kinematic_hand_4f) (fi bi : Fin 5) : M3 :=
  minRotMat (normalize3 (boneLocalKineRaw hand fi bi))
      (normalize3 (boneLocalTargetRaw hand fi bi)) *
    ((hand.fingers fi).bones bi).bone_relation.linear

/-- Reading back the bone written by `updateBoneRelation`. -/
theorem updateBoneRelation_read (hand : kinematic_hand_4f) (fi bi : Fin 5)
    (m : M3) :
    (((updateBoneRelation hand fi bi m).fingers fi).bones bi).bone_relation.linear
      = m := by
  simp [updateBoneRelation]
/-- The identity affine transform. -/
def idAffine : Affine3 := ⟨1, 0⟩

/-- A bone at rest: identity local relation and world pose. -/
def defaultBone : bone_t := ⟨idAffine, idAffine, 0⟩

/-- The pre-existing local rotation of the C2 test bone (90° about X). -/
def c2OldRot : M3 := !![1, 0, 0; 0, 0, -1; 0, 1, 0]

/-- A concrete hand state for exercising `do_it_for_bone` on finger 1,
bone 3: that bone has local rotation `c2OldRot` and identity world pose, its
single descendant (bone 4) sits at world position `(1,0,0)`, and every
target keypoint is `(0,1,0)`. -/
def c2Hand : kinematic_hand_4f where
  fingers := fun fi =>
    ⟨fun bi =>
      if fi = 1 ∧ bi = 3 then { defaultBone with bone_relation := ⟨c2OldRot, 0⟩ }
      else if fi = 1 ∧ bi = 4 then { defaultBone with world_pose := ⟨1, ![1, 0, 0]⟩ }
      else defaultBone⟩
  wrist_relation := idAffine
  t_jts := fun _ => ![0, 1, 0]
  t_jts_as_mat := 0
  kinematic := 0

theorem c2_children : boneChildren 3 = {4} := by
  decide

theorem c2_bone4 :
    (c2Hand.fingers 1).bones 4 = { defaultBone with world_pose := ⟨1, ![1, 0, 0]⟩ } := by
  simp only [c2Hand]
  rw [if_neg (by decide), if_pos (by decide)]

theorem c2_bone3 : (c2Hand.fingers 1).bones 3 = ⟨⟨c2OldRot, 0⟩, idAffine, 0⟩ := by
  simp only [c2Hand]
  rw [if_pos (by decide)]
  norm_num [defaultBone, idAffine]

theorem c2_kineCentroid : boneKineCentroid c2Hand 1 3 = ![1, 0, 0] := by
  unfold boneKineCentroid
  rw [c2_children, Finset.sum_singleton, c2_bone4]
  norm_num [defaultBone, idAffine]

theorem c2_targetCentroid : boneTargetCentroid c2Hand 1 3 = ![0, 1, 0] := by
  unfold boneTargetCentroid
  rw [c2_children, Finset.sum_singleton]
  norm_num [c2Hand, Fin.ext_iff]

theorem affInv_id : affInv idAffine = idAffine := by
  unfold affInv idAffine
  simp

theorem affApply_id (v : V3) : affApply idAffine v = v := by
  unfold affApply idAffine
  simp [Matrix.one_mulVec]

theorem c2_kineRaw : boneLocalKineRaw c2Hand 1 3 = ![1, 0, 0] := by
  unfold boneLocalKineRaw
  rw [c2_kineCentroid, c2_bone3]
  show affApply (affInv idAffine) ![1, 0, 0] = ![1, 0, 0]
  rw [affInv_id, affApply_id]

theorem c2_targetRaw : boneLocalTargetRaw c2Hand 1 3 = ![0, 1, 0] := by
  unfold boneLocalTargetRaw
  rw [c2_targetCentroid, c2_bone3]
  show affApply (affInv idAffine) ![0, 1, 0] = ![0, 1, 0]
  rw [affInv_id, affApply_id]

theorem c2_rot :
    minRotMat (normalize3 (boneLocalKineRaw c2Hand 1 3))
        (normalize3 (boneLocalTargetRaw c2Hand 1 3))
      = !![0, -1, 0; 1, 0, 0; 0, 0, 1] := by
  rw [c2_kineRaw, c2_targetRaw]
  rw [normalize3_of_unit (by norm_num [dot3]), normalize3_of_unit (by norm_num [dot3])]
  unfold minRotMat
  rw [if_neg (by norm_num [dot3, Matrix.vecHead, Matrix.vecTail, Function.comp, Fin.ext_iff])]
  ext i j
  fin_cases i <;> fin_cases j <;>
    norm_num [dot3, cross3, crossMat, Matrix.mul_apply, Matrix.add_apply,
      Matrix.smul_apply, Matrix.one_apply, Fin.sum_univ_three,
      Matrix.vecHead, Matrix.vecTail, Function.comp, Fin.ext_iff]

/-- C2 counterexample.  On `c2Hand`, `do_it_for_bone` composes the
shortest-arc correction on the right of the existing local rotation
(`new = old * correction`), which differs from the left-composition
`correction ∘ old` the claim states: here the correction is a 90° rotation
about Z and the old rotation a 90° rotation about X, which do not commute. -/
theorem C2_counterexample :
    (((do_it_for_bone c2Hand 1 3 false).fingers 1).bones 3).bone_relation.linear
      ≠ claimedBoneUpdate c2Hand 1 3 := by
  unfold do_it_for_bone claimedBoneUpdate
  rw [updateBoneRelation_read, c2_rot]
  intro h
  have h01 := congrFun (congrFun h 0) 1
  rw [c2_bone3] at h01
  norm_num [c2OldRot, Matrix.mul_apply, Fin.sum_univ_three,
    Matrix.vecHead, Matrix.vecTail, Function.comp, Fin.ext_iff] at h01

/-- C2 amended.  For every bone, `do_it_for_bone` right-composes the
shortest-arc correction onto the existing local rotation
(`new = old ∘ correction`, the correction acting in the bone's local frame),
and — whenever the two local-frame centroid vectors are nonzero — that
correction takes the normalized local-frame current-centroid direction
exactly to the normalized local-frame target-centroid direction. -/
theorem C2_amended_right_composition (hand : kinematic_hand_4f) (fi bi : Fin 5) (b : Bool)
    (hk : dot3 (boneLocalKineRaw hand fi bi) (boneLocalKineRaw hand fi bi) ≠ 0)
    (ht : dot3 (boneLocalTargetRaw hand fi bi) (boneLocalTargetRaw hand fi bi) ≠ 0) :
    (((do_it_for_bone hand fi bi b).fingers fi).bones bi).bone_relation.linear
      = ((hand.fingers fi).bones bi).bone_relation.linear *
        minRotMat (normalize3 (boneLocalKineRaw hand fi bi))
          (normalize3 (boneLocalTargetRaw hand fi bi)) ∧
    (minRotMat (normalize3 (boneLocalKineRaw hand fi bi))
        (normalize3 (boneLocalTargetRaw hand fi bi))).mulVec
      (normalize3 (boneLocalKineRaw hand fi bi))
      = normalize3 (boneLocalTargetRaw hand fi bi) := by
  constructor
  · unfold do_it_for_bone
    rw [updateBoneRelation_read]
  · exact minRotMat_mulVec (dot3_normalize3_self hk) (dot3_normalize3_self ht)

/-- Witness for the amended C2 theorem on the concrete hand `c2Hand`. -/
theorem C2_amended_right_composition_witness :
    (dot3 (boneLocalKineRaw c2Hand 1 3) (boneLocalKineRaw c2Hand 1 3) ≠ 0 ∧
     dot3 (boneLocalTargetRaw c2Hand 1 3) (boneLocalTargetRaw c2Hand 1 3) ≠ 0) ∧
    (((do_it_for_bone c2Hand 1 3 false).fingers 1).bones 3).bone_relation.linear
      = ((c2Hand.fingers 1).bones 3).bone_relation.linear *
        minRotMat (normalize3 (boneLocalKineRaw c2Hand 1 3))
          (normalize3 (boneLocalTargetRaw c2Hand 1 3)) ∧
    (minRotMat (normalize3 (boneLocalKineRaw c2Hand 1 3))
        (normalize3 (boneLocalTargetRaw c2Hand 1 3))).mulVec
      (normalize3 (boneLocalKineRaw c2Hand 1 3))
      = normalize3 (boneLocalTargetRaw c2Hand 1 3) := by
  have hk : dot3 (boneLocalKineRaw c2Hand 1 3) (boneLocalKineRaw c2Hand 1 3) ≠ 0 := by
    rw [c2_kineRaw]; norm_num [dot3]
  have ht : dot3 (boneLocalTargetRaw c2Hand 1 3) (boneLocalTargetRaw c2Hand 1 3) ≠ 0 := by
    rw [c2_targetRaw]; norm_num [dot3]
  exact ⟨⟨hk, ht⟩, C2_amended_right_composition c2Hand 1 3 false hk ht⟩

/-! ## The optimizer schedule (`do_it_for_finger` lines 363-382, `optimize`
lines 384-409)

The sequence of operations the optimizer performs is embedded as a list of
steps; each constructor records the call and its arguments exactly as they
appear in the source (including the default tangent-bound arguments a
`clamp_proximals` call receives when the caller omits them). -/

/-- One call made by the optimizer: a bone-rotation estimate, a
SwingTwistClamp (`clamp_proximals`), a HingeClamp (`clamp_to_x_axis`), a
forward-kinematics recompute (`_statics_init_world_poses`), or a whole-hand
rigid alignment (`two`). -/
inductive OptStep where
  | boneRot (finger bone : ℕ)
  | swingTwist (finger bone : ℕ) (maxSwing tl tr tc tu : ℝ)
  | hinge (finger bone : ℕ) (clampAngle : Bool) (minAngle maxAngle : ℝ)
  | fkRecompute
  | rigidAlign

/-- The call sequence of `do_it_for_finger` (lines 363-382), transcribed in
order.  The bone-1 `clamp_proximals(hand, finger_idx, 1, rad(4.0))` call
receives the declaration's default tangent bounds
`tan(rad(-20)), tan(rad(20)), tan(rad(-89)), tan(rad(30))`. -/
def do_it_for_finger_trace (f : ℕ) : List OptStep :=
  [.boneRot f 0,
   .swingTwist f 0 (rad 4) (Real.tan (rad (-30))) (Real.tan (rad 30))
     (Real.tan (rad (-10))) (Real.tan (rad 10)),
   .fkRecompute,
   .boneRot f 1,
   .swingTwist f 1 (rad 4) (Real.tan (rad (-20))) (Real.tan (rad 20))
     (Real.tan (rad (-89))) (Real.tan (rad 30)),
   .fkRecompute,
   .boneRot f 2,
   .hinge f 2 true (rad (-90)) (rad 10),
   .fkRecompute,
   .boneRot f 3,
   .hinge f 3 true (rad (-90)) (rad 10),
   .fkRecompute]

/-- The thumb segment of one `optimize` iteration (lines 388-401): rigid
alignment, thumb bones 1-3, rigid alignment again. -/
def optimizeThumbSegment : List OptStep :=
  [.rigidAlign,
   .boneRot 0 1,
   .swingTwist 0 1 (rad 70) (Real.tan (rad (-40))) (Real.tan (rad 40))
     (Real.tan (rad (-40))) (Real.tan (rad 40)),
   .fkRecompute,
   .boneRot 0 2,
   .hinge 0 2 true (rad (-90)) (rad 40),
   .fkRecompute,
   .boneRot 0 3,
   .hinge 0 3 true (rad (-90)) (rad 40),
   .fkRecompute,
   .rigidAlign]

/-- The full call sequence of `optimize` (lines 384-409): 15 iterations of
the thumb segment followed by the four non-thumb fingers, then a final rigid
alignment. -/
def optimize_trace : List OptStep :=
  (List.range 15).flatMap (fun _ =>
    optimizeThumbSegment ++ do_it_for_finger_trace 1 ++ do_it_for_finger_trace 2
      ++ do_it_for_finger_trace 3 ++ do_it_for_finger_trace 4)
  ++ [.rigidAlign]

/-- The per-finger schedule exactly as claim C1 states it: each bone from
proximal to distal gets a bone-rotation estimate, then SwingTwistClamp for
the proximal bone (index 0) and HingeClamp with an angle range for the
remaining three bones, each followed by a forward-kinematics recompute. -/
def claimedFingerTrace (f : ℕ) : List OptStep :=
  (List.range 4).flatMap (fun b =>
    [.boneRot f b,
     if b = 0 then
       .swingTwist f 0 (rad 4) (Real.tan (rad (-30))) (Real.tan (rad 30))
         (Real.tan (rad (-10))) (Real.tan (rad 10))
     else .hinge f b true (rad (-90)) (rad 10),
     .fkRecompute])

/-- The per-finger schedule as the code actually has it: SwingTwistClamp for
the first two bones (index 0 with the explicit tangent bounds, index 1 with
the default tangent bounds), HingeClamp for bones 2 and 3. -/
def amendedFingerTrace (f : ℕ) : List OptStep :=
  (List.range 4).flatMap (fun b =>
    [.boneRot f b,
     if b = 0 then
       .swingTwist f 0 (rad 4) (Real.tan (rad (-30))) (Real.tan (rad 30))
         (Real.tan (rad (-10))) (Real.tan (rad 10))
     else if b = 1 then
       .swingTwist f 1 (rad 4) (Real.tan (rad (-20))) (Real.tan (rad 20))
         (Real.tan (rad (-89))) (Real.tan (rad 30))
     else .hinge f b true (rad (-90)) (rad 10),
     .fkRecompute])

/-- C1 counterexample.  For finger 1 the code's per-finger schedule differs
from the claimed one: the second bone's limiter (position 4 of the trace) is
a SwingTwistClamp call, not the HingeClamp the claim assigns to every
non-proximal bone. -/
theorem C1_counterexample : do_it_for_finger_trace 1 ≠ claimedFingerTrace 1 := by
  intro h
  have h4 := congrArg (fun l => l.get? 4) h
  simp [do_it_for_finger_trace, claimedFingerTrace, List.range_succ] at h4

/-- C1 amended.  In each optimizer iteration each of the four non-thumb
fingers is processed sequentially from proximal to distal, each bone getting
the bone-rotation estimate followed by a limiter followed by a
forward-kinematics recompute — but the joint-appropriate limiter is
SwingTwistClamp for the first two bones (indices 0 and 1) and HingeClamp
with an angle range only for the remaining two (indices 2 and 3). -/
theorem C1_amended_schedule :
    (∀ f : ℕ, do_it_for_finger_trace f = amendedFingerTrace f) ∧
    optimize_trace = (List.range 15).flatMap (fun _ =>
        optimizeThumbSegment ++ [1, 2, 3, 4].flatMap do_it_for_finger_trace)
      ++ [.rigidAlign] := by
  constructor
  · intro f
    simp [do_it_for_finger_trace, amendedFingerTrace, List.range_succ]
  · simp [optimize_trace, List.flatMap_cons]

/-! ## Hand-level operations and the optimizer

`_statics_init_world_poses` (forward kinematics) lives in
`kinematic_hand_init.hpp`, which is not under `src/`, and `Eigen::umeyama`
is an external library routine; both are taken as parameters of the
optimizer below.  Everything else is transcribed from `kinematic_main.cpp`. -/

/-- `clamp_to_x_axis` acting on the hand state (lines 139-200): replace the
bone's local rotation by its hinge-clamped value. -/
def clamp_to_x_axis (hand : kinematic_hand_4f) (fi bi : Fin 5)
    (clampAngle : Bool) (minA maxA : ℝ) : kinematic_hand_4f :=
  updateBoneRelation hand fi bi
    (clampToXAxisMat (((hand.fingers fi).bones bi).bone_relation.linear)
      clampAngle minA maxA)

/-- `clamp_proximals` acting on the hand state (lines 289-359). -/
def clamp_proximals (hand : kinematic_hand_4f) (fi bi : Fin 5)
    (maxSwing tl tr tc tu : ℝ) : kinematic_hand_4f :=
  updateBoneRelation hand fi bi
    (clampProximalsMat (((hand.fingers fi).bones bi).bone_relation.linear)
      maxSwing tl tr tc tu)

/-- `two` (lines 30-57): gather the current joint world positions into the
3×21 `kinematic` matrix (wrist in column 0, then finger bones 1-4 in order),
solve the rigid alignment with the external Procrustes routine `um`
(modelled from the spec: `Eigen::umeyama` with scaling disabled), compose
the result onto the wrist pose, and rerun forward kinematics `fk`
(modelled from the spec: the skeleton collaborator's
`_statics_init_world_poses`). -/
def two (um : Matrix (Fin 3) (Fin 21) ℝ → Matrix (Fin 3) (Fin 21) ℝ → Affine3)
    (fk : kinematic_hand_4f → kinematic_hand_4f)
    (hand : kinematic_hand_4f) : kinematic_hand_4f :=
  let kin : Matrix (Fin 3) (Fin 21) ℝ := fun r c =>
    if c = 0 then hand.wrist_relation.trans r
    else (((hand.fingers ⟨(c.val - 1) / 4, by have := c.isLt; omega⟩).bones
      ⟨(c.val - 1) % 4 + 1, by have := c.isLt; omega⟩).world_pose.trans) r
  let hand2 := { hand with kinematic := kin }
  fk { hand2 with
       wrist_relation := affMul (um hand2.kinematic hand2.t_jts_as_mat)
         hand2.wrist_relation }

/-- `do_it_for_finger` (lines 363-382) on the hand state. -/
def do_it_for_finger (fk : kinematic_hand_4f → kinematic_hand_4f)
    (hand : kinematic_hand_4f) (fi : Fin 5) : kinematic_hand_4f :=
  let h1 := fk (clamp_proximals (do_it_for_bone hand fi 0 false) fi 0
    (rad 4) (Real.tan (rad (-30))) (Real.tan (rad 30))
    (Real.tan (rad (-10))) (Real.tan (rad 10)))
  let h2 := fk (clamp_proximals (do_it_for_bone h1 fi 1 true) fi 1
    (rad 4) (Real.tan (rad (-20))) (Real.tan (rad 20))
    (Real.tan (rad (-89))) (Real.tan (rad 30)))
  let h3 := fk (clamp_to_x_axis (do_it_for_bone h2 fi 2 true) fi 2
    true (rad (-90)) (rad 10))
  fk (clamp_to_x_axis (do_it_for_bone h3 fi 3 true) fi 3
    true (rad (-90)) (rad 10))

/-- One iteration of the `optimize` loop body (lines 387-406). -/
def optimizeIteration
    (um : Matrix (Fin 3) (Fin 21) ℝ → Matrix (Fin 3) (Fin 21) ℝ → Affine3)
    (fk : kinematic_hand_4f → kinematic_hand_4f)
    (hand : kinematic_hand_4f) : kinematic_hand_4f :=
  let h1 := two um fk hand
  let h2 := fk (clamp_proximals (do_it_for_bone h1 0 1 false) 0 1
    (rad 70) (Real.tan (rad (-40))) (Real.tan (rad 40))
    (Real.tan (rad (-40))) (Real.tan (rad 40)))
  let h3 := fk (clamp_to_x_axis (do_it_for_bone h2 0 2 true) 0 2
    true (rad (-90)) (rad 40))
  let h4 := fk (clamp_to_x_axis (do_it_for_bone h3 0 3 true) 0 3
    true (rad (-90)) (rad 40))
  let h5 := two um fk h4
  do_it_for_finger fk (do_it_for_finger fk
    (do_it_for_finger fk (do_it_for_finger fk h5 1) 2) 3) 4

/-- `optimize` (lines 384-409): fifteen fixed iterations and a final rigid
alignment. -/
def optimize
    (um : Matrix (Fin 3) (Fin 21) ℝ → Matrix (Fin 3) (Fin 21) ℝ → Affine3)
    (fk : kinematic_hand_4f → kinematic_hand_4f)
    (hand : kinematic_hand_4f) : kinematic_hand_4f :=
  two um fk ((optimizeIteration um fk)^[15] hand)

/-! ## Frame adapter (`optimize_new_frame` and joint emission,
lines 412-528)

The external joint-set record and the quaternion extraction
(`Eigen::Quaternionf q = pose.rotation()`) are modelled at the interface:
the quaternion extractor is an arbitrary function of the rotation matrix,
and the joint enumeration constants come from the external `xrt_defines.h`
(modelled from the spec: palm = 0, wrist = 1, thumb metacarpal = 2, then the
remaining finger joints in order).  The hidden-thumb policy macro
`CONTINUE_IF_HIDDEN_THUMB` of `kinematic_defines.hpp` is not under `src/`
and is modelled from the spec as an arbitrary per-(finger, bone) skip
predicate. -/

/-- One emitted joint relation: the four space-relation flags, position and
orientation quaternion. -/
structure xrt_joint_relation where
  orientation_valid : Bool
  orientation_tracked : Bool
  position_valid : Bool
  position_tracked : Bool
  px : ℝ
  py : ℝ
  pz : ℝ
  qx : ℝ
  qy : ℝ
  qz : ℝ
  qw : ℝ

/-- The output joint set: the emitted `(index, relation)` assignments in
program order, and the `is_active` flag. -/
structure xrt_hand_joint_set where
  joints : List (ℕ × xrt_joint_relation)
  is_active : Bool

/-- Modelled from the spec: `XRT_HAND_JOINT_PALM` of the external joint
enumeration. -/
def XRT_HAND_JOINT_PALM : ℕ := 0

/-- Modelled from the spec: `XRT_HAND_JOINT_WRIST` of the external joint
enumeration. -/
def XRT_HAND_JOINT_WRIST : ℕ := 1

/-- Modelled from the spec: `XRT_HAND_JOINT_THUMB_METACARPAL` of the
external joint enumeration, where the finger-bone emission loop starts. -/
def XRT_HAND_JOINT_THUMB_METACARPAL : ℕ := 2

/-- `make_joint_at_matrix_left_hand` (lines 412-430): all four flags set,
position copied, orientation extracted by the external quaternion
conversion `mq`. -/
def make_joint_at_matrix_left_hand (mq : M3 → ℝ × ℝ × ℝ × ℝ)
    (pose : Affine3) : xrt_joint_relation :=
  let q := mq pose.linear
  { orientation_valid := true, orientation_tracked := true,
    position_valid := true, position_tracked := true,
    px := pose.trans 0, py := pose.trans 1, pz := pose.trans 2,
    qx := q.1, qy := q.2.1, qz := q.2.2.1, qw := q.2.2.2 }

/-- The right-hand basis-mirroring of lines 443-452: reflect about X
(`mirror_on_x * rotation`), then negate the first column. -/
def rhMirrorRotation (m : M3) : M3 :=
  let m2 := (!![-1, 0, 0; 0, 1, 0; 0, 0, 1] : M3) * m
  Matrix.of fun i j => if j = 0 then -(m2 i j) else m2 i j

/-- `make_joint_at_matrix_right_hand` (lines 432-462): all four flags set,
position X negated, orientation extracted from the mirrored rotation. -/
def make_joint_at_matrix_right_hand (mq : M3 → ℝ × ℝ × ℝ × ℝ)
    (pose : Affine3) : xrt_joint_relation :=
  let q := mq (rhMirrorRotation pose.linear)
  { orientation_valid := true, orientation_tracked := true,
    position_valid := true, position_tracked := true,
    px := -(pose.trans 0), py := pose.trans 1, pz := pose.trans 2,
    qx := q.1, qy := q.2.1, qz := q.2.2.1, qw := q.2.2.2 }

/-- `make_joint_at_matrix` (lines 464-472): dispatch on the hand index. -/
def make_joint_at_matrix (mq : M3 → ℝ × ℝ × ℝ × ℝ) (pose : Affine3)
    (hand_idx : ℕ) : xrt_joint_relation :=
  if hand_idx = 0 then make_joint_at_matrix_left_hand mq pose
  else make_joint_at_matrix_right_hand mq pose

/-- The `(finger_idx, bone_idx)` pairs of the emission loop, in program
order. -/
def fingerBonePairs : List (Fin 5 × Fin 5) :=
  (List.finRange 5).flatMap (fun fi => (List.finRange 5).map (fun bi => (fi, bi)))

/-- One step of the finger-bone emission loop (lines 515-525): skip
hidden-thumb slots and the thumb metacarpal placeholder `(0,0)` without
advancing `start`; otherwise emit the bone's world pose at index `start`
and advance. -/
def emitStep (mq : M3 → ℝ × ℝ × ℝ × ℝ) (hiddenThumb : Fin 5 → Fin 5 → Bool)
    (hand : kinematic_hand_4f) (hand_idx : ℕ)
    (acc : ℕ × List (ℕ × xrt_joint_relation)) (p : Fin 5 × Fin 5) :
    ℕ × List (ℕ × xrt_joint_relation) :=
  if hiddenThumb p.1 p.2 then acc
  else if p.1 = 0 ∧ p.2 = 0 then acc
  else (acc.1 + 1, acc.2 ++
    [(acc.1, make_joint_at_matrix mq
      (((hand.fingers p.1).bones p.2).world_pose) hand_idx)])

/-- The intake of one keypoint (lines 482-494): copy (or X-negate, for the
right hand) the input point into `t_jts` and the matching column of
`t_jts_as_mat`. -/
def intakeStep (pts : Fin 21 → V3) (hand_idx : ℕ)
    (hand : kinematic_hand_4f) (i : Fin 21) : kinematic_hand_4f :=
  let p := if hand_idx = 0 then pts i
    else ![-(pts i 0), pts i 1, pts i 2]
  { hand with
    t_jts := Function.update hand.t_jts i p,
    t_jts_as_mat := fun r c => if c = i then p r else hand.t_jts_as_mat r c }

/-- The palm pose synthesized at lines 503-509: orientation of the middle
finger's metacarpal, position midway between that bone and the next. -/
def palmRelation (hand : kinematic_hand_4f) : Affine3 :=
  { linear := ((hand.fingers 2).bones 0).world_pose.linear,
    trans := (0 : V3) + (1/2 : ℝ) • ((hand.fingers 2).bones 0).world_pose.trans
      + (1/2 : ℝ) • ((hand.fingers 2).bones 1).world_pose.trans }

/-- The outtake (lines 499-527): wrist, palm, then the finger-bone loop,
with `is_active` set. -/
def outtakeSet (mq : M3 → ℝ × ℝ × ℝ × ℝ) (hiddenThumb : Fin 5 → Fin 5 → Bool)
    (hand : kinematic_hand_4f) (hand_idx : ℕ) : xrt_hand_joint_set :=
  let wristJoint := (XRT_HAND_JOINT_WRIST,
    make_joint_at_matrix mq hand.wrist_relation hand_idx)
  let palmJoint := (XRT_HAND_JOINT_PALM,
    make_joint_at_matrix mq (palmRelation hand) hand_idx)
  let fingerJoints := (fingerBonePairs.foldl
    (emitStep mq hiddenThumb hand hand_idx)
    (XRT_HAND_JOINT_THUMB_METACARPAL, [])).2
  { joints := [wristJoint, palmJoint] ++ fingerJoints, is_active := true }

/-- `optimize_new_frame` (lines 475-528): intake the 21 points, run the
optimizer, and emit the joint set.  Returns the updated hand state and the
output set. -/
def optimize_new_frame
    (um : Matrix (Fin 3) (Fin 21) ℝ → Matrix (Fin 3) (Fin 21) ℝ → Affine3)
    (fk : kinematic_hand_4f → kinematic_hand_4f)
    (mq : M3 → ℝ × ℝ × ℝ × ℝ) (hiddenThumb : Fin 5 → Fin 5 → Bool)
    (model_joints_3d : Fin 21 → V3) (hand : kinematic_hand_4f)
    (hand_idx : ℕ) : kinematic_hand_4f × xrt_hand_joint_set :=
  let hand1 := (List.finRange 21).foldl (intakeStep model_joints_3d hand_idx) hand
  let hand2 := optimize um fk hand1
  (hand2, outtakeSet mq hiddenThumb hand2 hand_idx)

/-- All four space-relation flags of an emitted joint. -/
def jointFlagsSet (j : xrt_joint_relation) : Bool :=
  j.orientation_valid && j.orientation_tracked && j.position_valid && j.position_tracked

/-- Both joint emitters set all four flags. -/
theorem make_joint_flags (mq : M3 → ℝ × ℝ × ℝ × ℝ) (pose : Affine3) (idx : ℕ) :
    jointFlagsSet (make_joint_at_matrix mq pose idx) = true := by
  unfold make_joint_at_matrix make_joint_at_matrix_left_hand
    make_joint_at_matrix_right_hand jointFlagsSet
  split <;> rfl

/-- The emission loop only appends fully-flagged joints. -/
theorem emitFold_flags (mq : M3 → ℝ × ℝ × ℝ × ℝ) (ht : Fin 5 → Fin 5 → Bool)
    (hand : kinematic_hand_4f) (idx : ℕ) :
    ∀ (pairs : List (Fin 5 × Fin 5)) (st : ℕ)
      (acc : List (ℕ × xrt_joint_relation)),
    acc.all (fun p => jointFlagsSet p.2) = true →
    ((pairs.foldl (emitStep mq ht hand idx) (st, acc)).2).all
      (fun p => jointFlagsSet p.2) = true := by
  intro pairs
  induction pairs with
  | nil => intro st acc h; simpa using h
  | cons hd tl ih =>
    intro st acc h
    rw [List.foldl_cons]
    unfold emitStep
    by_cases h1 : ht hd.1 hd.2
    · rw [if_pos h1]; exact ih st acc h
    · rw [if_neg h1]
      by_cases h2 : hd.1 = 0 ∧ hd.2 = 0
      · rw [if_pos h2]; exact ih st acc h
      · rw [if_neg h2]
        apply ih
        rw [List.all_append]
        simp [h, make_joint_flags]

/-- C8.  For every input — any 21-point array, either handedness, any hand
state, and any behaviour of the external collaborators (forward kinematics,
Procrustes solver, quaternion extraction, hidden-thumb policy) — the solve
produces an output joint set: every emitted joint carries all four
position/orientation valid/tracked flags, and the set is marked active; the
solve interface is total, with no error path. -/
theorem C8_solve_always_produces (um : Matrix (Fin 3) (Fin 21) ℝ → Matrix (Fin 3) (Fin 21) ℝ → Affine3)
    (fk : kinematic_hand_4f → kinematic_hand_4f)
    (mq : M3 → ℝ × ℝ × ℝ × ℝ) (hiddenThumb : Fin 5 → Fin 5 → Bool)
    (pts : Fin 21 → V3) (hand : kinematic_hand_4f) (idx : ℕ) :
    (optimize_new_frame um fk mq hiddenThumb pts hand idx).2.is_active = true ∧
    (optimize_new_frame um fk mq hiddenThumb pts hand idx).2.joints.all
      (fun p => jointFlagsSet p.2) = true := by
  constructor
  · rfl
  · unfold optimize_new_frame outtakeSet
    rw [List.all_append]
    simp only [List.all_cons, List.all_nil, make_joint_flags, Bool.and_true, Bool.true_and]
    apply emitFold_flags
    rfl

/-- X-mirroring of a keypoint, as in the spec's mirror-symmetry property. -/
def mirrorPointX (v : V3) : V3 := ![-(v 0), v 1, v 2]

/-- The emitted position of a joint record, with its index. -/
def posTuple (p : ℕ × xrt_joint_relation) : ℕ × ℝ × ℝ × ℝ :=
  (p.1, p.2.px, p.2.py, p.2.pz)

/-- The X-mirrored emitted position of a joint record, with its index. -/
def negPosTuple (p : ℕ × xrt_joint_relation) : ℕ × ℝ × ℝ × ℝ :=
  (p.1, -(p.2.px), p.2.py, p.2.pz)

/-- Negating X twice recovers the point. -/
theorem mirror_twice (v : V3) :
    (![-(mirrorPointX v 0), mirrorPointX v 1, mirrorPointX v 2] : V3) = v := by
  funext k
  fin_cases k <;> simp [mirrorPointX]

/-- Right-hand intake of the X-mirrored array equals left-hand intake of
the original array. -/
theorem intake_mirror (pts : Fin 21 → V3) :
    intakeStep (fun i => mirrorPointX (pts i)) 1 = intakeStep pts 0 := by
  funext hand i
  unfold intakeStep
  rw [if_neg (by norm_num), if_pos rfl, mirror_twice]

/-- The right-hand emitter's position is the X-mirror of the left-hand
emitter's position for the same pose. -/
theorem make_joint_pos_mirror (mq : M3 → ℝ × ℝ × ℝ × ℝ) (pose : Affine3) (n : ℕ) :
    posTuple (n, make_joint_at_matrix mq pose 1)
      = negPosTuple (n, make_joint_at_matrix mq pose 0) := by
  unfold posTuple negPosTuple make_joint_at_matrix
  rw [if_neg (by norm_num), if_pos rfl]
  unfold make_joint_at_matrix_left_hand make_joint_at_matrix_right_hand
  rfl

/-- The emission loops for the two handedness values walk the same slots
and emit X-mirrored positions. -/
theorem emitFold_mirror (mq : M3 → ℝ × ℝ × ℝ × ℝ) (ht : Fin 5 → Fin 5 → Bool)
    (hand : kinematic_hand_4f) :
    ∀ (pairs : List (Fin 5 × Fin 5)) (st : ℕ)
      (accR accL : List (ℕ × xrt_joint_relation)),
    accR.map posTuple = accL.map negPosTuple →
    ((pairs.foldl (emitStep mq ht hand 1) (st, accR)).2).map posTuple
      = ((pairs.foldl (emitStep mq ht hand 0) (st, accL)).2).map negPosTuple := by
  intro pairs
  induction pairs with
  | nil => intro st accR accL h; simpa using h
  | cons hd tl ih =>
    intro st accR accL h
    rw [List.foldl_cons, List.foldl_cons]
    unfold emitStep
    by_cases h1 : ht hd.1 hd.2
    · rw [if_pos h1, if_pos h1]; exact ih st accR accL h
    · rw [if_neg h1, if_neg h1]
      by_cases h2 : hd.1 = 0 ∧ hd.2 = 0
      · rw [if_pos h2, if_pos h2]; exact ih st accR accL h
      · rw [if_neg h2, if_neg h2]
        apply ih
        rw [List.map_append, List.map_append, h]
        simp [make_joint_pos_mirror]

/-- C9.  For every 21-point input array, solving with handedness = left on
the array and solving with handedness = right on its X-mirrored copy (from
the same initial hand state and the same external collaborators) emit joint
sets whose positions are exact X-mirror images of each other, index by
index. -/
theorem C9_mirror_symmetry (um : Matrix (Fin 3) (Fin 21) ℝ → Matrix (Fin 3) (Fin 21) ℝ → Affine3)
    (fk : kinematic_hand_4f → kinematic_hand_4f)
    (mq : M3 → ℝ × ℝ × ℝ × ℝ) (hiddenThumb : Fin 5 → Fin 5 → Bool)
    (pts : Fin 21 → V3) (hand : kinematic_hand_4f) :
    ((optimize_new_frame um fk mq hiddenThumb
        (fun i => mirrorPointX (pts i)) hand 1).2).joints.map posTuple
      = ((optimize_new_frame um fk mq hiddenThumb pts hand 0).2).joints.map
          negPosTuple := by
  unfold optimize_new_frame
  rw [intake_mirror]
  unfold outtakeSet
  rw [List.map_append, List.map_append]
  rw [List.map_cons, List.map_cons, List.map_cons, List.map_cons,
    List.map_nil, List.map_nil]
  rw [make_joint_pos_mirror, make_joint_pos_mirror]
  rw [emitFold_mirror mq hiddenThumb _ fingerBonePairs
    XRT_HAND_JOINT_THUMB_METACARPAL [] [] rfl]

/-- The memory a call to `optimize_new_frame` can touch: the caller's input
array, the persistent hand state, and the output set. -/
structure FrameState where
  model_joints_3d : Fin 21 → V3
  hand : kinematic_hand_4f
  out_set : xrt_hand_joint_set

/-- `optimize_new_frame` as a transformer of the full frame state: the
intake loop reads `model_joints_3d` and writes only hand fields (the
right-hand X negation happens on the copy stored in `t_jts`), the optimizer
rewrites the hand, and the outtake writes the output set. -/
def optimize_new_frame_state
    (um : Matrix (Fin 3) (Fin 21) ℝ → Matrix (Fin 3) (Fin 21) ℝ → Affine3)
    (fk : kinematic_hand_4f → kinematic_hand_4f)
    (mq : M3 → ℝ × ℝ × ℝ × ℝ) (hiddenThumb : Fin 5 → Fin 5 → Bool)
    (hand_idx : ℕ) (s : FrameState) : FrameState :=
  let s1 := (List.finRange 21).foldl
    (fun st i => { st with
      hand := intakeStep st.model_joints_3d hand_idx st.hand i }) s
  let s2 := { s1 with hand := optimize um fk s1.hand }
  { s2 with out_set := outtakeSet mq hiddenThumb s2.hand hand_idx }

/-- C10.  A solve never modifies its 21-point input array: for every input
state and either handedness, the `model_joints_3d` component of the frame
state is unchanged by `optimize_new_frame`. -/
theorem C10_input_array_unmodified (um : Matrix (Fin 3) (Fin 21) ℝ → Matrix (Fin 3) (Fin 21) ℝ → Affine3)
    (fk : kinematic_hand_4f → kinematic_hand_4f)
    (mq : M3 → ℝ × ℝ × ℝ × ℝ) (hiddenThumb : Fin 5 → Fin 5 → Bool)
    (hand_idx : ℕ) (s : FrameState) :
    (optimize_new_frame_state um fk mq hiddenThumb hand_idx s).model_joints_3d
      = s.model_joints_3d := by
  have key : ∀ (l : List (Fin 21)) (st : FrameState),
      (l.foldl (fun st i => { st with
        hand := intakeStep st.model_joints_3d hand_idx st.hand i }) st).model_joints_3d
      = st.model_joints_3d := by
    intro l
    induction l with
    | nil => intro st; rfl
    | cons hd tl ih =>
      intro st
      rw [List.foldl_cons]
      rw [ih]
  exact key (List.finRange 21) s
